import Mathlib

/-!
Verification development for the lumo agent runtime (StarlightSearch/lumo).

The definitions below are a shallow embedding of the Rust sources:

* `src/lumo/src/agent/agent_trait.rs`   — `direct_run`, `run`,
  `provide_final_answer`, `write_inner_memory_from_logs`
* `src/lumo/src/agent/multistep_agent.rs` — `planning_step`
* `src/lumo/src/agent/function_calling_agent.rs` — `step`,
  `extract_action_json`, `parse_response`
* `src/lumo/src/models/openai.rs`       — `deserialize_tool_id`,
  `serialize_arguments`, `deserialize_arguments`, `FunctionCall`, `ToolCall`
* `src/lumo/src/models/gemini.rs`       — `get_tools_used`

External effects are embedded deterministically: the chat model is an
oracle mapping the index of the call to its result (this covers every
behaviour of a real model, which is a function of the messages: for any
concrete run the oracle can replay its responses); tool execution and
managed-sub-agent runs are oracle functions as well; `nanoid` random id
generation is an oracle from a fresh-id counter to a string; the
`serde_json` encoder and parser (an external crate, not part of this
repository) are parameters wherever the code calls them, and the file
also provides concrete executable instances (`Json.renderF`, `jsonParse`)
used by witnesses.  JSON numbers are modelled as integers (the claims
under study never depend on float payloads).  `join_all` preserves the
order in which futures were pushed, so concurrent dispatch is embedded as
an order-preserving map over the call list.
-/

namespace Lumo

instance {ε α : Type} [DecidableEq ε] [DecidableEq α] : DecidableEq (Except ε α)
  | .ok a, .ok b => if h : a = b then .isTrue (by rw [h]) else .isFalse (by simp [h])
  | .ok _, .error _ => .isFalse (by simp)
  | .error _, .ok _ => .isFalse (by simp)
  | .error e, .error f => if h : e = f then .isTrue (by rw [h]) else .isFalse (by simp [h])

/-! ### JSON values (serde_json::Value, numbers restricted to integers)

Arrays and objects are mutual inductives rather than nested `List`s so
that equality is derivable and all functions kernel-reduce. -/

mutual
inductive Json where
  | null
  | bool (b : Bool)
  | num (n : Int)
  | str (s : String)
  | arr (elems : JsonList)
  | obj (fields : JsonObj)
  deriving Repr, DecidableEq
inductive JsonList where
  | nil
  | cons (hd : Json) (tl : JsonList)
  deriving Repr, DecidableEq
inductive JsonObj where
  | nil
  | cons (key : String) (val : Json) (tl : JsonObj)
  deriving Repr, DecidableEq
end

def JsonList.toList : JsonList → List Json
  | .nil => []
  | .cons x tl => x :: tl.toList

def JsonObj.toEntries : JsonObj → List (String × Json)
  | .nil => []
  | .cons k v tl => (k, v) :: tl.toEntries

/-- Lookup of a key in a JSON object (serde_json `Map::get`). -/
def JsonObj.get : JsonObj → String → Option Json
  | .nil, _ => none
  | .cons k v tl, key => if k = key then some v else tl.get key

/-- The `value["key"]` indexing of serde_json: `Null` when the value is
not an object or the key is missing. -/
def Json.index (v : Json) (key : String) : Json :=
  match v with
  | .obj fs => (fs.get key).getD .null
  | _ => .null

/-- The `as_str` accessor of serde_json. -/
def Json.asStr : Json → Option String
  | .str s => some s
  | _ => none

/-- Hexadecimal digit used when rendering `\u00XX` escapes. -/
def hexDigitChar (n : Nat) : Char :=
  if n < 10 then Char.ofNat (48 + n) else Char.ofNat (87 + n)

/-- Escape of one character inside a JSON string literal, as serde_json
emits it: `"` and `\` and the named control escapes, `\u00XX` for other
control characters, everything else verbatim. -/
def escapeJsonChar (c : Char) : List Char :=
  if c = '"' then ['\\', '"']
  else if c = '\\' then ['\\', '\\']
  else if c = '\n' then ['\\', 'n']
  else if c = '\r' then ['\\', 'r']
  else if c = '\t' then ['\\', 't']
  else if c.toNat = 8 then ['\\', 'b']
  else if c.toNat = 12 then ['\\', 'f']
  else if c.toNat < 32 then
    ['\\', 'u', '0', '0', hexDigitChar (c.toNat / 16), hexDigitChar (c.toNat % 16)]
  else [c]

/-- Rendering of a JSON string literal, quotes included. -/
def renderJsonString (s : String) : String :=
  "\"" ++ String.mk ((s.data.map escapeJsonChar).flatten) ++ "\""

/-- Compact rendering of a JSON value (serde_json `to_string`).  `fuel`
bounds the nesting depth; any fuel at least the depth of the value gives
the true encoding.  The fuel keeps the recursion structural so the
kernel can evaluate the function. -/
def Json.renderF : Nat → Json → String
  | 0, _ => ""
  | _ + 1, .null => "null"
  | _ + 1, .bool true => "true"
  | _ + 1, .bool false => "false"
  | _ + 1, .num n => toString n
  | _ + 1, .str s => renderJsonString s
  | fuel + 1, .arr xs =>
      "[" ++ String.intercalate "," (xs.toList.map (Json.renderF fuel)) ++ "]"
  | fuel + 1, .obj fs =>
      "\x7b" ++
        String.intercalate ","
          (fs.toEntries.map (fun e => renderJsonString e.1 ++ ":" ++ Json.renderF fuel e.2)) ++
      "\x7d"

/-! ### A JSON parser (serde_json `from_str` on the integer fragment)

The parser is fueled (fuel bounds the bracket-nesting depth, which is at
most the input length, so `jsonParse` below is total and faithful).  It
rejects what serde_json rejects on this fragment: raw control characters
in strings, bad escapes, leading zeros, trailing garbage.  Floats are
outside the embedded fragment and are rejected. -/

def jsonWs (cs : List Char) : List Char :=
  cs.dropWhile (fun c => c = ' ' ∨ c = '\n' ∨ c = '\r' ∨ c = '\t')

def hexVal (c : Char) : Option Nat :=
  if '0' ≤ c ∧ c ≤ '9' then some (c.toNat - 48)
  else if 'a' ≤ c ∧ c ≤ 'f' then some (c.toNat - 87)
  else if 'A' ≤ c ∧ c ≤ 'F' then some (c.toNat - 55)
  else none

/-- Parse the four hex digits of a `\uXXXX` escape. -/
def parseFourHex : List Char → Option (Nat × List Char)
  | c1 :: c2 :: c3 :: c4 :: rest => do
    let h1 ← hexVal c1
    let h2 ← hexVal c2
    let h3 ← hexVal c3
    let h4 ← hexVal c4
    pure (((h1 * 16 + h2) * 16 + h3) * 16 + h4, rest)
  | _ => none

/-- Parse the body of a JSON string literal after the opening quote,
returning the decoded characters and the input after the closing quote.
The fuel is the number of remaining input characters. -/
def parseStringBody : Nat → List Char → Option (List Char × List Char)
  | 0, _ => none
  | _ + 1, [] => none
  | fuel + 1, c :: cs =>
    if c = '"' then some ([], cs)
    else if c = '\\' then
      match cs with
      | [] => none
      | e :: cs' =>
        if e = '"' ∨ e = '\\' ∨ e = '/' then
          (parseStringBody fuel cs').map (fun r => (e :: r.1, r.2))
        else if e = 'n' then (parseStringBody fuel cs').map (fun r => ('\n' :: r.1, r.2))
        else if e = 'r' then (parseStringBody fuel cs').map (fun r => ('\r' :: r.1, r.2))
        else if e = 't' then (parseStringBody fuel cs').map (fun r => ('\t' :: r.1, r.2))
        else if e = 'b' then (parseStringBody fuel cs').map (fun r => (Char.ofNat 8 :: r.1, r.2))
        else if e = 'f' then (parseStringBody fuel cs').map (fun r => (Char.ofNat 12 :: r.1, r.2))
        else if e = 'u' then
          match parseFourHex cs' with
          | none => none
          | some (n, rest) =>
            if n < 55296 ∨ (57343 < n ∧ n < 1114112) then
              (parseStringBody fuel rest).map (fun r => (Char.ofNat n :: r.1, r.2))
            else none
        else none
    else if c.toNat < 32 then none
    else (parseStringBody fuel cs).map (fun r => (c :: r.1, r.2))

/-- Parse a run of decimal digits. -/
def parseDigits : Nat → List Char → (List Char × List Char)
  | 0, cs => ([], cs)
  | fuel + 1, c :: cs =>
    if '0' ≤ c ∧ c ≤ '9' then
      let r := parseDigits fuel cs
      (c :: r.1, r.2)
    else ([], c :: cs)
  | _ + 1, [] => ([], [])

def digitsToNat (ds : List Char) : Nat :=
  ds.foldl (fun acc c => acc * 10 + (c.toNat - 48)) 0

/-- Parse a JSON integer (serde_json number grammar restricted to
integers: optional minus, no leading zeros, and a following `.`, `e` or
`E` makes the token a float, which is outside the fragment). -/
def parseIntToken (cs : List Char) : Option (Int × List Char) :=
  let (neg, cs') := match cs with
    | '-' :: rest => (true, rest)
    | _ => (false, cs)
  let (ds, rest) := parseDigits (cs'.length + 1) cs'
  match ds with
  | [] => none
  | d :: ds' =>
    if d = '0' ∧ ds' ≠ [] then none
    else
      match rest with
      | '.' :: _ => none
      | 'e' :: _ => none
      | 'E' :: _ => none
      | _ =>
        let n : Int := Int.ofNat (digitsToNat (d :: ds'))
        some (if neg then -n else n, rest)

mutual
/-- Parse one JSON value.  The fuel bounds the nesting depth. -/
def parseValue : Nat → List Char → Option (Json × List Char)
  | 0, _ => none
  | fuel + 1, cs =>
    match jsonWs cs with
    | 'n' :: 'u' :: 'l' :: 'l' :: rest => some (.null, rest)
    | 't' :: 'r' :: 'u' :: 'e' :: rest => some (.bool true, rest)
    | 'f' :: 'a' :: 'l' :: 's' :: 'e' :: rest => some (.bool false, rest)
    | '"' :: rest =>
      (parseStringBody (rest.length + 1) rest).map (fun r => (.str (String.mk r.1), r.2))
    | '[' :: rest =>
      (match jsonWs rest with
       | ']' :: rest' => some (.arr .nil, rest')
       | other => (parseElems fuel other).map (fun r => (.arr r.1, r.2)))
    | '\x7b' :: rest =>
      (match jsonWs rest with
       | '\x7d' :: rest' => some (.obj .nil, rest')
       | other => (parseFields fuel other).map (fun r => (.obj r.1, r.2)))
    | other => (parseIntToken other).map (fun r => (.num r.1, r.2))

/-- Parse the elements of a non-empty array, up to and including `]`. -/
def parseElems : Nat → List Char → Option (JsonList × List Char)
  | 0, _ => none
  | fuel + 1, cs => do
    let (v, rest) ← parseValue fuel cs
    match jsonWs rest with
    | ',' :: rest' => (parseElems fuel rest').map (fun r => (.cons v r.1, r.2))
    | ']' :: rest' => some (.cons v .nil, rest')
    | _ => none

/-- Parse the fields of a non-empty object, up to and including the
closing brace. -/
def parseFields : Nat → List Char → Option (JsonObj × List Char)
  | 0, _ => none
  | fuel + 1, cs => do
    match jsonWs cs with
    | '"' :: rest =>
      let (k, rest1) ← parseStringBody (rest.length + 1) rest
      match jsonWs rest1 with
      | ':' :: rest2 => do
        let (v, rest3) ← parseValue fuel rest2
        match jsonWs rest3 with
        | ',' :: rest4 => (parseFields fuel rest4).map (fun r => (.cons (String.mk k) v r.1, r.2))
        | '\x7d' :: rest4 => some (.cons (String.mk k) v .nil, rest4)
        | _ => none
      | _ => none
    | _ => none
end

/-- The serde_json `from_str` entry point on the embedded fragment:
parse one value and require only whitespace after it. -/
def jsonParse (s : String) : Except String Json :=
  match parseValue (s.length + 1) s.data with
  | none => .error "invalid JSON"
  | some (v, rest) =>
    match jsonWs rest with
    | [] => .ok v
    | _ => .error "trailing characters"

/-! ### Core data model

`AgentError` (src/lumo/src/errors.rs is not among the provided sources).
Modelled from the spec: section 7 lists the error kinds Generation,
Parsing and Execution, each carrying a message; `message()` and the
Display used by `e.to_string()` yield the carried text. -/

inductive AgentError where
  | Generation (m : String)
  | Parsing (m : String)
  | Execution (m : String)
  deriving Repr, DecidableEq

/-- Modelled from the spec: the text carried by an `AgentError`
(src/lumo/src/errors.rs `message()`). -/
def AgentError.message : AgentError → String
  | .Generation m => m
  | .Parsing m => m
  | .Execution m => m

/-- Modelled from the spec: `e.to_string()` on an `AgentError`
("a tool error is stringified into that call's observation slot"). -/
def AgentError.displayText (e : AgentError) : String :=
  e.message

/-- Message roles (src/lumo/src/models/types.rs `MessageRole`). -/
inductive MessageRole where
  | User
  | Assistant
  | System
  | ToolCall
  | ToolResponse
  deriving Repr, DecidableEq

/-- The function record of a tool call
(src/lumo/src/models/openai.rs `FunctionCall`). -/
structure FunctionCall where
  name : String
  arguments : Json
  deriving Repr, DecidableEq

/-- A tool call record (src/lumo/src/models/openai.rs `ToolCall`). -/
structure ToolCall where
  id : Option String
  call_type : Option String
  function : FunctionCall
  deriving Repr, DecidableEq

/-- A chat message (src/lumo/src/models/types.rs `Message`). -/
structure Message where
  role : MessageRole
  content : String
  tool_call_id : Option String
  tool_calls : Option (List ToolCall)
  deriving Repr, DecidableEq

/-- An action step record.  src/lumo/src/agent/agent_step.rs is not
among the provided sources; modelled from the spec (section 3,
`ActionStep`) and from every field access in the agent sources:
`step`, `task`, `agent_memory`, `llm_output`, `tool_call`,
`observations`, `final_answer`, `error`. -/
structure AgentStep where
  step : Nat
  task : Option String
  agent_memory : Option (List Message)
  llm_output : Option String
  tool_call : Option (List ToolCall)
  observations : Option (List String)
  final_answer : Option String
  error : Option AgentError
  deriving Repr, DecidableEq

/-- `AgentStep::new(step, task)` as used by `direct_run`: the two given
fields set, everything else empty. -/
def AgentStep.new (step : Nat) (task : Option String) : AgentStep :=
  { step := step, task := task, agent_memory := none, llm_output := none,
    tool_call := none, observations := none, final_answer := none, error := none }

/-- A log entry.  src/lumo/src/agent/agent_step.rs is not among the
provided sources; modelled from the spec (section 3, `Step`) and the
match arms of `write_inner_memory_from_logs`: `ActionStep`,
`PlanningStep(facts, plan)` (the binder names of agent_trait.rs line
130, where the first field is rendered as `[FACTS]` and the second as
`[PLAN]`), `TaskStep`, `SystemPromptStep`, and a bare tool-call variant
unused by the step loop. -/
inductive Step where
  | ActionStep (s : AgentStep)
  | PlanningStep (facts plan : String)
  | TaskStep (task : String)
  | SystemPromptStep (text : String)
  | ToolCallStep (tc : ToolCall)
  deriving Repr, DecidableEq

/-- The aggregated result of one chat-model call, as the agents consume
it (src/lumo/src/models/model_traits.rs `ModelResponse`):
`get_response()` and `get_tools_used()`. -/
structure ModelResponseV where
  response : Except AgentError String
  toolsUsed : Except AgentError (List ToolCall)
  deriving Repr, DecidableEq

/-! ### OpenAI wire handling (src/lumo/src/models/openai.rs) -/

/-- The id field of a `ToolCall` after serde deserialization
(src/lumo/src/models/openai.rs lines 71-106).  The outer option is
field presence (`#[serde(default = "generate_tool_id")]`), the inner
option a JSON null; `nid` is the fresh string `nanoid!(16)` would
produce.  A missing, null or empty id is replaced by the generated
id. -/
def toolIdFromWire (nid : String) (wire : Option (Option String)) : Option String :=
  match wire with
  | none => some nid
  | some none => some nid
  | some (some id) => if id.isEmpty then some nid else some id

/-- `serialize_arguments` (src/lumo/src/models/openai.rs lines 126-143):
the string content put on the wire for the `arguments` field.  `enc` is
the external serde_json `to_string`.  A string value is emitted as is;
any other value is serialized to its JSON text. -/
def serializeArguments (enc : Json → String) (v : Json) : String :=
  match v with
  | .str s => s
  | _ => enc v

/-- `deserialize_arguments` (src/lumo/src/models/openai.rs lines
146-162): a string-valued field is opportunistically reparsed as JSON
(`dec` is the external serde_json `from_str`), keeping the original
string when parsing fails; any other value is kept as is. -/
def deserializeArguments (dec : String → Except String Json) (v : Json) : Json :=
  match v with
  | .str s =>
    (match dec s with
     | .ok parsed => parsed
     | .error _ => v)
  | _ => v

/-- The wire form of a `FunctionCall`: serde serializes `name`
verbatim and `arguments` through `serialize_arguments`, which always
yields a JSON string on the wire. -/
def functionCallToWire (enc : Json → String) (fc : FunctionCall) : Json :=
  .obj (.cons "name" (.str fc.name)
    (.cons "arguments" (.str (serializeArguments enc fc.arguments)) .nil))

/-- Deserialization of a `FunctionCall` from its wire object: `name`
must be a string, and the `arguments` field goes through
`deserialize_arguments`. -/
def functionCallOfWire (dec : String → Except String Json) (w : Json) : Option FunctionCall :=
  match w with
  | .obj fs =>
    match fs.get "name", fs.get "arguments" with
    | some (.str n), some args => some { name := n, arguments := deserializeArguments dec args }
    | _, _ => none
  | _ => none

/-! ### Gemini tool-call extraction (src/lumo/src/models/gemini.rs) -/

/-- One part of a Gemini response (`GeminiResponsePart`): optional text
and an optional function call `{name, args}`. -/
structure GeminiResponsePart where
  text : Option String
  function_call : Option (String × Json)
  deriving Repr, DecidableEq

/-- `get_tools_used` of `GeminiChatResponse` (src/lumo/src/models/gemini.rs
lines 113-128): each functionCall part becomes a `ToolCall` whose id is
a copy of the function NAME. -/
def geminiGetToolsUsed (parts : List GeminiResponsePart) : List ToolCall :=
  (parts.filterMap (·.function_call)).map (fun fc =>
    { id := some fc.1, call_type := some "function",
      function := { name := fc.1, arguments := fc.2 } })

/-! ### Action-JSON extraction
(src/lumo/src/agent/function_calling_agent.rs lines 401-435) -/

/-- Rust `str::split` by a non-empty pattern: non-overlapping matches
scanned left to right.  The fuel is the input length plus one. -/
def splitOnPat (pat : List Char) : Nat → List Char → List (List Char)
  | 0, cs => [cs]
  | fuel + 1, cs =>
    if pat ≠ [] ∧ pat.isPrefixOf cs then
      [] :: splitOnPat pat fuel (cs.drop pat.length)
    else
      match cs with
      | [] => [[]]
      | c :: cs' =>
        match splitOnPat pat fuel cs' with
        | [] => [[c]]
        | seg :: rest => (c :: seg) :: rest

/-- Rust `str::rfind` for a single character. -/
def rfindChar (c : Char) (cs : List Char) : Option Nat :=
  match cs.reverse.findIdx? (· = c) with
  | none => none
  | some i => some (cs.length - 1 - i)

/-- Rust `str::trim` (whitespace removed from both ends), embedded on
the character list so the kernel can evaluate it. -/
def rustTrim (s : String) : String :=
  String.mk (((s.data.dropWhile Char.isWhitespace).reverse.dropWhile Char.isWhitespace).reverse)

/-- The `.replace('\n', "\\n").replace('\r', "\\r")` cleanup applied to
the extracted block. -/
def escapeNewlines (cs : List Char) : List Char :=
  (cs.map (fun c =>
    if c = '\n' then ['\\', 'n'] else if c = '\r' then ['\\', 'r'] else [c])).flatten

/-- The `<tool_call>…</tool_call>` fallback of `extract_action_json`
(lines 414-424).  `some none` means no JSON was found. -/
def tryToolCallTag (cs : List Char) : Option (Option String) :=
  match (splitOnPat "<tool_call>".data (cs.length + 1) cs).get? 1 with
  | some part =>
    (match splitOnPat "</tool_call>".data (part.length + 1) part with
     | [] => some none
     | content :: _ =>
       let trimmed := rustTrim (String.mk content)
       if trimmed.data.head? = some '\x7b' ∧ trimmed.data.getLast? = some '\x7d' then
         some (some (String.mk (escapeNewlines trimmed.data)))
       else some none)
  | none => some none

/-- `extract_action_json` (lines 401-425): the segment after the first
`Action:`, sliced from its first `{` to its last `}`; otherwise the
`<tool_call>` tag fallback.  The outer `none` is the panic of the Rust
slice `action_part[start..=end]` when the last `}` sits before the
first `{`. -/
def extractActionJson (text : String) : Option (Option String) :=
  let cs := text.data
  match (splitOnPat "Action:".data (cs.length + 1) cs).get? 1 with
  | some actionPart =>
    (match actionPart.findIdx? (· = '\x7b'), rfindChar '\x7d' actionPart with
     | some startIdx, some endIdx =>
       if endIdx + 1 < startIdx then none
       else
         some (some (String.mk (escapeNewlines
           ((actionPart.drop startIdx).take (endIdx + 1 - startIdx)))))
     | _, _ => tryToolCallTag cs)
  | none => tryToolCallTag cs

/-- `parse_response` (lines 427-435): extraction followed by the
external serde_json parse (`dec`).  `none` is the propagated slice
panic. -/
def parseResponse (dec : String → Except String Json) (response : String) :
    Option (Except AgentError Json) :=
  match extractActionJson response with
  | none => none
  | some none => some (.error (.Parsing "No valid action JSON found"))
  | some (some jsonStr) =>
    match dec jsonStr with
    | .ok v => some (.ok v)
    | .error e => some (.error (.Parsing e))

/-! ### Memory assembler
(src/lumo/src/agent/agent_trait.rs `write_inner_memory_from_logs`,
lines 121-244).  The Rust function only ever returns `Ok`; its one
failure mode is the unchecked `observations[i]` indexing, embedded here
as `none` (an index panic). -/

/-- A message with no tool-call decorations. -/
def Message.plain (role : MessageRole) (content : String) : Message :=
  { role := role, content := content, tool_call_id := none, tool_calls := none }

/-- The `ToolResponse` messages of one action step (lines 191-219):
entry `i` of the tool-call list reads `observations[i]` with no bounds
check; `none` embeds the out-of-bounds panic. -/
def toolResponseMessages (obs : List String) : List ToolCall → Nat → Option (List Message)
  | [], _ => some []
  | tc :: tcs, i =>
    match obs.get? i with
    | none => none
    | some o =>
      let id := match tc.id with
        | some s => if s.isEmpty then none else some s
        | none => none
      (toolResponseMessages obs tcs (i + 1)).map
        (fun ms => { role := .ToolResponse, content := "Observation: " ++ o,
                     tool_call_id := id, tool_calls := none } :: ms)

/-- The messages contributed by one `ActionStep` (lines 162-240). -/
def actionStepMessages (summary : Bool) (s : AgentStep) : Option (List Message) :=
  let llmPart : List Message :=
    if s.llm_output.isSome ∧ ¬summary then
      let out := s.llm_output.getD ""
      let content :=
        if out.isEmpty then
          match s.tool_call with
          | some tcs => String.intercalate "\n" (tcs.map (fun _ =>
              "I have provided the tool calls. You can provide the responses to the tool calls in the next message."))
          | none => ""
        else out
      [{ role := .Assistant, content := content, tool_call_id := none,
         tool_calls := s.tool_call }]
    else []
  let obsPart : Option (List Message) :=
    match s.tool_call, s.observations with
    | some tcs, some obs => toolResponseMessages obs tcs 0
    | none, some obs =>
      some [Message.plain .User ("Observations: " ++ String.intercalate "\n" obs)]
    | _, none => some []
  let errPart : List Message :=
    match s.error with
    | some e =>
      [Message.plain .User ("Error: " ++ e.message ++
        "\nNow let's retry: take care not to repeat previous errors! If you have retried several times, try a completely different approach.\n")]
    | none => []
  obsPart.map (fun p => llmPart ++ p ++ errPart)

/-- The messages contributed by one log entry (lines 127-241). -/
def stepMessages (summary : Bool) : Step → Option (List Message)
  | .ToolCallStep _ => some []
  | .PlanningStep facts plan =>
    some ((if ¬summary then [Message.plain .Assistant ("[FACTS]:\n" ++ facts)] else []) ++
      [Message.plain .Assistant ("[PLAN]:\n" ++ plan)])
  | .TaskStep task => some [Message.plain .User ("New Task: " ++ task)]
  | .SystemPromptStep p => some [Message.plain .System p]
  | .ActionStep s => actionStepMessages summary s

/-- `write_inner_memory_from_logs` (lines 121-244); `none` is the
`observations[i]` index panic. -/
def writeInnerMemory (summary : Bool) : List Step → Option (List Message)
  | [] => some []
  | l :: ls =>
    (stepMessages summary l).bind (fun ms =>
      (writeInnerMemory summary ls).map (fun rest => ms ++ rest))

/-! ### Agent state and configuration -/

/-- Outcome of an effectful operation: success, a propagated
`AgentError`, or a Rust panic (`unwrap` on `Err`, out-of-bounds
indexing). -/
inductive Outcome (α : Type) where
  | ok (a : α)
  | err (e : AgentError)
  | panicked
  deriving Repr, DecidableEq

/-- The mutable agent state touched by the step loop: the log, the step
counter, and the oracle cursors (how many model calls were made, how
many fresh nanoid ids were drawn). -/
structure RunState where
  logs : List Step
  stepNumber : Nat
  calls : Nat
  ids : Nat
  deriving Repr, DecidableEq

/-- The fixed data of a `MultiStepAgent` together with its external
collaborators as deterministic oracles: `model` maps the index of the
chat-model call to its aggregated result, `toolExec` is
`ToolGroup::call`, `managedAgents` pairs each managed sub-agent's name
with its `run` (an opaque call returning a result string), `dec` is the
external serde_json parser and `nid` the nanoid generator (indexed by
the fresh-id cursor). -/
structure AgentConfig where
  systemPrompt : String
  maxSteps : Nat
  planningInterval : Option Nat
  model : Nat → Except AgentError ModelResponseV
  toolExec : FunctionCall → Except AgentError String
  managedAgents : List (String × (String → Except AgentError String))
  dec : String → Except String Json
  nid : Nat → String

/-- The oracle cursors a variant `step` advances: how many model calls
were made and how many fresh nanoid ids were drawn.  The variant steps
read the log but never push to it (only `direct_run` and
`planning_step` do). -/
structure Cursors where
  calls : Nat
  ids : Nat
  deriving Repr, DecidableEq

/-- Result of one variant `step` call: the advanced cursors, the
mutated draft `step_log` (pushed by `direct_run` afterwards), and the
returned `Result<Option<AgentStep>>`. -/
structure StepOut where
  cur : Cursors
  log : AgentStep
  result : Outcome (Option AgentStep)

/-! ### Function-calling agent step
(src/lumo/src/agent/function_calling_agent.rs lines 205-398) -/

/-- Value::get("task") of serde_json, as used on each call's arguments
in the managed-agent branch. -/
def jsonGet (v : Json) (key : String) : Option Json :=
  match v with
  | .obj fs => fs.get key
  | _ => none

/-- The task strings collected in the managed-agent branch (lines
314-329): one entry per call whose `task` argument is present and is a
string.  (The error observations written for the other calls are
overwritten by the unconditional `step_log.observations = Some(…)` at
line 371 and are therefore not modelled.) -/
def collectManagedTasks (tools : List ToolCall) : List String :=
  tools.filterMap (fun t => (jsonGet t.function.arguments "task").bind Json.asStr)

/-- The serial managed-agent invocations of lines 330-334; an `Err`
from the sub-agent propagates out of the step (`.await?`). -/
def runManagedTasks (runM : String → Except AgentError String) :
    List String → Except AgentError (List String)
  | [] => .ok []
  | t :: ts =>
    match runM t with
    | .error e => .error e
    | .ok r => (runManagedTasks runM ts).map (fun rs => r :: rs)

/-- Result of walking the call list in the real-tool branch (lines
336-359): an early `final_answer` return, an error from awaiting the
`final_answer` tool, or the futures pushed for concurrent dispatch. -/
inductive RealDispatch where
  | finalAnswer (answer : String)
  | failed (e : AgentError)
  | futures (fs : List ToolCall)
  deriving Repr

/-- The loop of lines 336-359: a call named `final_answer` is awaited
on the spot and ends the step; calls naming a managed agent are
skipped; every other call is pushed as a future (in call order). -/
def gatherFutures (toolExec : FunctionCall → Except AgentError String)
    (managedNames : List String) : List ToolCall → RealDispatch
  | [] => .futures []
  | t :: ts =>
    if t.function.name = "final_answer" then
      match toolExec t.function with
      | .ok answer => .finalAnswer answer
      | .error e => .failed e
    else
      let rest := gatherFutures toolExec managedNames ts
      if managedNames.contains t.function.name then rest
      else
        match rest with
        | .futures fs => .futures (t :: fs)
        | other => other

/-- The observation one dispatched future contributes (lines 361-369):
the tool result, or the stringified error. -/
def toolObservation (toolExec : FunctionCall → Except AgentError String)
    (t : ToolCall) : String :=
  match toolExec t.function with
  | .ok r => r
  | .error e => e.displayText

/-- Lines 293-392: dispatch of a non-empty call list and the final
`step_log.observations = Some(observations)`.  `join_all` returns the
results in the order the futures were pushed, so the concurrent batch
is an order-preserving map; a failed tool call is stringified into its
observation slot (lines 361-369). -/
def dispatchTools (cfg : AgentConfig) (cur : Cursors) (log : AgentStep)
    (tools : List ToolCall) : StepOut :=
  let managedNames := cfg.managedAgents.map (fun a => a.1)
  let headName := tools.head?.map (fun t => t.function.name)
  match cfg.managedAgents.find? (fun a => headName = some a.1) with
  | some agent =>
    (match runManagedTasks agent.2 (collectManagedTasks tools) with
     | .error e => ⟨cur, log, .err e⟩
     | .ok results =>
       let log' := { log with observations := some results }
       ⟨cur, log', .ok (some log')⟩)
  | none =>
    match gatherFutures cfg.toolExec managedNames tools with
    | .finalAnswer answer =>
      let log' := { log with final_answer := some answer, observations := some [answer] }
      ⟨cur, log', .ok (some log')⟩
    | .failed e => ⟨cur, log, .err e⟩
    | .futures fs =>
      let results := fs.map (toolObservation cfg.toolExec)
      let log' := { log with observations := some results }
      ⟨cur, log', .ok (some log')⟩

/-- Lines 286-295 and onwards, after the inline-extraction attempt:
`responseOk` is `Some` when `get_response()` was `Ok`.  With an `Ok`
response and no calls, the response text becomes the final answer
(lines 286-291; the result of the second `write_inner_memory_from_logs`
is discarded, but its panic would still fire); with an `Err` response
and no calls, a placeholder observation is stored (lines 293-295). -/
def afterInline (cfg : AgentConfig) (logs : List Step) (cur : Cursors) (log : AgentStep)
    (tools : List ToolCall) (responseOk : Option String) : StepOut :=
  match responseOk with
  | some response =>
    if tools.isEmpty then
      match writeInnerMemory false logs with
      | none => ⟨cur, log, .panicked⟩
      | some _ =>
        let log' := { log with final_answer := some response,
                               observations := some [response] }
        ⟨cur, log', .ok (some log')⟩
    else dispatchTools cfg cur log tools
  | none =>
    if tools.isEmpty then
      let noCallMsg := "No tool call was made. If this is the final answer, use the final_answer tool to return your answer."
      let log' := { log with tool_call := none, observations := some [noCallMsg] }
      ⟨cur, log', .ok (some log')⟩
    else dispatchTools cfg cur log tools

/-- The tool call synthesized from an inline action JSON block (lines
275-282): a generated `call_`-prefixed id, the `name` field (empty
when not a string), and the `arguments` field. -/
def synthToolCall (nid : String) (action : Json) : ToolCall :=
  { id := some ("call_" ++ nid),
    call_type := some "function",
    function := { name := ((action.index "name").asStr).getD "",
                  arguments := action.index "arguments" } }

/-- `FunctionCallingAgent::step` on an `ActionStep` draft (lines
205-398): build the inner memory, call the model, take its structured
tool calls, let a parsable inline `Action:`/`<tool_call>` block replace
them (lines 272-285), then either declare a final answer or dispatch. -/
def fcStep (cfg : AgentConfig) (logs : List Step) (cur : Cursors) (draft : AgentStep) : StepOut :=
  match writeInnerMemory false logs with
  | none => ⟨cur, draft, .panicked⟩
  | some mem =>
    let log0 := { draft with agent_memory := some mem }
    let cur1 : Cursors := { cur with calls := cur.calls + 1 }
    match cfg.model cur.calls with
    | .error e => ⟨cur1, log0, .err e⟩
    | .ok resp =>
      let log1 := { log0 with
        llm_output := some (match resp.response with | .ok r => r | .error _ => "") }
      match resp.toolsUsed with
      | .error e => ⟨cur1, log1, .err e⟩
      | .ok tools0 =>
        let log2 := { log1 with tool_call := some tools0 }
        match resp.response with
        | .ok response =>
          if (rustTrim response).isEmpty then
            afterInline cfg logs cur1 log2 tools0 (some response)
          else
            (match parseResponse cfg.dec response with
             | none => ⟨cur1, log2, .panicked⟩
             | some (.error _) => afterInline cfg logs cur1 log2 tools0 (some response)
             | some (.ok action) =>
               let synth := synthToolCall (cfg.nid cur1.ids) action
               let cur2 : Cursors := { cur1 with ids := cur1.ids + 1 }
               afterInline cfg logs cur2 { log2 with tool_call := some [synth] } [synth]
                 (some response))
        | .error _ => afterInline cfg logs cur1 log2 tools0 none

/-! ### Planning, recovery and the step loop
(src/lumo/src/agent/multistep_agent.rs lines 245-347 and
src/lumo/src/agent/agent_trait.rs lines 44-119) -/

/-- Result of `planning_step`. -/
structure PlanOut where
  state : RunState
  result : Outcome (Option Step)

/-- `planning_step` (multistep_agent.rs lines 245-346).  On the first
step it makes the facts call and then the plan call, appends
`PlanningStep(final_facts_redaction, final_plan_redaction)` to the log
(line 334), and returns `PlanningStep(final_plan_redaction,
final_facts_redaction)` — the source swaps the two arguments in the
returned value (lines 339-342).  On a non-first step it returns `None`
without touching anything. -/
def planningStep (cfg : AgentConfig) (st : RunState) (isFirstStep : Bool) : PlanOut :=
  if isFirstStep then
    match writeInnerMemory false st.logs with
    | none => ⟨st, .panicked⟩
    | some mem =>
      if mem.isEmpty then ⟨st, .panicked⟩
      else
        let st1 := { st with calls := st.calls + 1 }
        match cfg.model st.calls with
        | .error e => ⟨st1, .err e⟩
        | .ok respFacts =>
          match respFacts.response with
          | .error e => ⟨st1, .err e⟩
          | .ok answer_facts =>
            let st2 := { st1 with calls := st1.calls + 1 }
            match cfg.model st1.calls with
            | .error e => ⟨st2, .err e⟩
            | .ok respPlan =>
              match respPlan.response with
              | .error e => ⟨st2, .err e⟩
              | .ok answer_plan =>
                let final_plan_redaction :=
                  "Here is the plan of action that I will follow for the task: \n" ++ answer_plan
                let final_facts_redaction :=
                  "Here are the facts that I know so far: \n" ++ answer_facts
                let st3 := { st2 with logs := st2.logs ++
                  [Step.PlanningStep final_facts_redaction final_plan_redaction] }
                ⟨st3, .ok (some
                  (Step.PlanningStep final_plan_redaction final_facts_redaction))⟩
  else ⟨st, .ok none⟩

/-- `provide_final_answer` (agent_trait.rs lines 98-119): one more
model call on the recovery prompt; the `[1..]` slice of the inner
memory panics when the memory is empty. -/
def provideFinalAnswer (cfg : AgentConfig) (st : RunState) : RunState × Outcome String :=
  match writeInnerMemory false st.logs with
  | none => (st, .panicked)
  | some mem =>
    if mem.isEmpty then (st, .panicked)
    else
      let st1 := { st with calls := st.calls + 1 }
      match cfg.model st.calls with
      | .error e => (st1, .err e)
      | .ok resp =>
        match resp.response with
        | .error e => (st1, .err e)
        | .ok r => (st1, .ok r)

/-- The while loop of `direct_run` (agent_trait.rs lines 46-62),
parametric in the variant `step` implementation.  Each iteration runs
while no final answer is recorded and `step_number < max_steps`
(strict, as in the source); the planner is invoked when
`step_number % planning_interval == 1` and its `Result` is
`.unwrap()`ed (a planner error is a panic); the mutated step log is
pushed and the step counter incremented.  The fuel only bounds the
iteration count and `max_steps` fuel is always enough, since every
iteration increments `step_number` toward `max_steps`. -/
def directRunLoop (stepFn : AgentConfig → List Step → Cursors → AgentStep → StepOut)
    (cfg : AgentConfig) (task : String) :
    Nat → RunState → Option String → RunState × Outcome (Option String)
  | 0, st, fa => (st, .ok fa)
  | fuel + 1, st, fa =>
    if fa.isNone ∧ st.stepNumber < cfg.maxSteps then
      let draft := AgentStep.new st.stepNumber (some task)
      let planned : RunState × Outcome Unit :=
        match cfg.planningInterval with
        | none => (st, .ok ())
        | some k =>
          if st.stepNumber % k = 1 then
            match planningStep cfg st (st.stepNumber = 1) with
            | ⟨st', .ok _⟩ => (st', .ok ())
            | ⟨st', .err _⟩ => (st', .panicked)
            | ⟨st', .panicked⟩ => (st', .panicked)
          else (st, .ok ())
      match planned with
      | (st1, .panicked) => (st1, .panicked)
      | (st1, .err e) => (st1, .err e)
      | (st1, .ok _) =>
        match stepFn cfg st1.logs ⟨st1.calls, st1.ids⟩ draft with
        | ⟨cur2, _, .panicked⟩ => ({ st1 with calls := cur2.calls, ids := cur2.ids }, .panicked)
        | ⟨cur2, _, .err e⟩ => ({ st1 with calls := cur2.calls, ids := cur2.ids }, .err e)
        | ⟨cur2, log, .ok ret⟩ =>
          let fa' := match ret with
            | some s => s.final_answer
            | none => fa
          let st3 := { st1 with calls := cur2.calls, ids := cur2.ids,
                                logs := st1.logs ++ [Step.ActionStep log],
                                stepNumber := st1.stepNumber + 1 }
          directRunLoop stepFn cfg task fuel st3 fa'
    else (st, .ok fa)

/-- `direct_run` (agent_trait.rs lines 44-74): the loop followed by the
recovery call when no final answer was found and the step counter
reached `max_steps`; the returned string falls back to the
max-steps message when there is still no answer. -/
def directRun (stepFn : AgentConfig → List Step → Cursors → AgentStep → StepOut)
    (cfg : AgentConfig) (task : String) (st : RunState) : RunState × Outcome String :=
  match directRunLoop stepFn cfg task cfg.maxSteps st none with
  | (st', .panicked) => (st', .panicked)
  | (st', .err e) => (st', .err e)
  | (st', .ok fa) =>
    if fa.isNone ∧ cfg.maxSteps ≤ st'.stepNumber then
      match provideFinalAnswer cfg st' with
      | (st2, .panicked) => (st2, .panicked)
      | (st2, .err e) => (st2, .err e)
      | (st2, .ok r) => (st2, .ok r)
    else (st', .ok (fa.getD "Max steps reached without final answer"))

/-- The state after the prologue of `run` (lines 77-93): system prompt
installed at index 0 (after a clear when resetting), the task step
appended, the step counter at 1. -/
def initState (cfg : AgentConfig) (task : String) (reset : Bool) (st0 : RunState) : RunState :=
  let sysStep := Step.SystemPromptStep cfg.systemPrompt
  let logs1 :=
    if reset then [sysStep]
    else if st0.logs.isEmpty then [sysStep]
    else st0.logs.set 0 sysStep
  { st0 with logs := logs1 ++ [Step.TaskStep task], stepNumber := 1 }

/-- `run` (agent_trait.rs lines 76-96): the prologue followed by
`direct_run`. -/
def runAgent (stepFn : AgentConfig → List Step → Cursors → AgentStep → StepOut)
    (cfg : AgentConfig) (task : String) (reset : Bool) (st0 : RunState) :
    RunState × Outcome String :=
  directRun stepFn cfg task (initState cfg task reset st0)

/-! ### Log observations used by the claims -/

def isActionStep : Step → Bool
  | .ActionStep _ => true
  | _ => false

def isPlanningStep : Step → Bool
  | .PlanningStep _ _ => true
  | _ => false

/-- Number of action steps in a log. -/
def actionCount (logs : List Step) : Nat := (logs.filter isActionStep).length

/-- Number of planning steps in a log. -/
def planningCount (logs : List Step) : Nat := (logs.filter isPlanningStep).length

/-- The observation text of a step as joined for the 30,000-character
check (function_calling_agent.rs lines 373-391:
`observations.unwrap_or_default().join("\n")`). -/
def joinedObservations (s : AgentStep) : String :=
  String.intercalate "\n" (s.observations.getD [])

/-- The truncation notice appended in the tracing output of
function_calling_agent.rs line 383. -/
def truncationNotice : String :=
  " \n ....This content has been truncated due to the 30000 character limit....."

/-! ### Concrete scenarios

Mock models as in the test scenarios of the spec: each configuration
fixes the oracles and a fresh agent state is run on a task. -/

/-- A structured call of a real tool named `a`. -/
def tcEcho : ToolCall := ⟨some "id1", some "function", ⟨"a", .obj .nil⟩⟩

/-- A structured call naming the managed sub-agent `m`. -/
def tcSub : ToolCall := ⟨some "id2", some "function", ⟨"m", .obj (.cons "task" (.str "T") .nil)⟩⟩

/-- Scenario: the model always returns empty tool calls and empty text
(spec scenario 4), with `max_steps = 2`. -/
def cfgEmpty : AgentConfig :=
  { systemPrompt := "sys", maxSteps := 2, planningInterval := none,
    model := fun _ => .ok ⟨.ok "", .ok []⟩,
    toolExec := fun f => .ok ("ran:" ++ f.name),
    managedAgents := [], dec := jsonParse, nid := fun _ => "N" }

def runEmpty : RunState × Outcome String := runAgent fcStep cfgEmpty "t" true ⟨[], 0, 0, 0⟩

/-- Scenario: the first model call returns a mixed batch — one real
tool call and one managed-sub-agent call. -/
def cfgMixed : AgentConfig :=
  { systemPrompt := "sys", maxSteps := 3, planningInterval := none,
    model := fun k => if k = 0 then .ok ⟨.ok "", .ok [tcEcho, tcSub]⟩ else .ok ⟨.ok "", .ok []⟩,
    toolExec := fun f => .ok ("ran:" ++ f.name),
    managedAgents := [("m", fun t => .ok ("M:" ++ t))], dec := jsonParse, nid := fun _ => "N" }

def stepMixed : StepOut :=
  fcStep cfgMixed [.SystemPromptStep "sys", .TaskStep "t"] ⟨0, 0⟩ (AgentStep.new 1 (some "t"))

def runMixed : RunState × Outcome String := runAgent fcStep cfgMixed "t" true ⟨[], 0, 0, 0⟩

/-- Scenario: a planning step whose facts call answers `F` and whose
plan call answers `P`. -/
def cfgPlanFP : AgentConfig :=
  { systemPrompt := "sys", maxSteps := 2, planningInterval := some 2,
    model := fun k => if k = 0 then .ok ⟨.ok "F", .ok []⟩ else .ok ⟨.ok "P", .ok []⟩,
    toolExec := fun _ => .ok "", managedAgents := [], dec := jsonParse, nid := fun _ => "N" }

def planFP : PlanOut :=
  planningStep cfgPlanFP ⟨[.SystemPromptStep "sys", .TaskStep "t"], 1, 0, 0⟩ true

def factsRedactionF : String := "Here are the facts that I know so far: \nF"
def planRedactionP : String := "Here is the plan of action that I will follow for the task: \nP"

/-- Scenario: the model returns a structured call of tool `a` AND a
response text holding an inline `Action:` JSON block naming `t2`. -/
def cfgInline : AgentConfig :=
  { systemPrompt := "sys", maxSteps := 3, planningInterval := none,
    model := fun _ => .ok ⟨.ok "Action: \x7b\"name\": \"t2\", \"arguments\": \x7b\x7d\x7d", .ok [tcEcho]⟩,
    toolExec := fun f => .ok ("ran:" ++ f.name),
    managedAgents := [], dec := jsonParse, nid := fun _ => "N" }

def stepInline : StepOut :=
  fcStep cfgInline [.SystemPromptStep "sys", .TaskStep "t"] ⟨0, 0⟩ (AgentStep.new 1 (some "t"))

/-- Scenario: the model response carries a Gemini function call whose
name is the empty string, converted by `get_tools_used`. -/
def cfgGemEmpty : AgentConfig :=
  { systemPrompt := "sys", maxSteps := 3, planningInterval := none,
    model := fun _ => .ok ⟨.ok "", .ok (geminiGetToolsUsed [⟨none, some ("", .obj .nil)⟩])⟩,
    toolExec := fun f => .ok ("ran:" ++ f.name),
    managedAgents := [], dec := jsonParse, nid := fun _ => "N" }

def stepGemEmpty : StepOut :=
  fcStep cfgGemEmpty [.SystemPromptStep "sys", .TaskStep "t"] ⟨0, 0⟩ (AgentStep.new 1 (some "t"))

/-- Scenario: two turns of a single real tool call, then a recovery
answer `REC`; `max_steps = 3`. -/
def cfgRecovery : AgentConfig :=
  { systemPrompt := "sys", maxSteps := 3, planningInterval := none,
    model := fun k => if k ≤ 1 then .ok ⟨.ok "", .ok [tcEcho]⟩ else .ok ⟨.ok "REC", .ok []⟩,
    toolExec := fun f => .ok ("ran:" ++ f.name),
    managedAgents := [], dec := jsonParse, nid := fun _ => "N" }

def runRecovery : RunState × Outcome String := runAgent fcStep cfgRecovery "t" true ⟨[], 0, 0, 0⟩

/-- Scenario: `planning_interval = 1`, empty model responses. -/
def cfgPlanOne : AgentConfig :=
  { systemPrompt := "sys", maxSteps := 2, planningInterval := some 1,
    model := fun _ => .ok ⟨.ok "", .ok []⟩,
    toolExec := fun _ => .ok "", managedAgents := [], dec := jsonParse, nid := fun _ => "N" }

def runPlanOne : RunState × Outcome String := runAgent fcStep cfgPlanOne "t" true ⟨[], 0, 0, 0⟩

/-- Scenario: `planning_interval = 2`, planner answers then a final
answer `done` taken from the plain response. -/
def cfgPlanTwo : AgentConfig :=
  { systemPrompt := "sys", maxSteps := 2, planningInterval := some 2,
    model := fun k => if k ≤ 1 then .ok ⟨.ok "F", .ok []⟩ else .ok ⟨.ok "done", .ok []⟩,
    toolExec := fun _ => .ok "", managedAgents := [], dec := jsonParse, nid := fun _ => "N" }

def runPlanTwo : RunState × Outcome String := runAgent fcStep cfgPlanTwo "t" true ⟨[], 0, 0, 0⟩

/-- A 40,000-character tool result. -/
def bigObservation : String := String.mk (List.replicate 40000 'a')

/-- Scenario: one real tool call whose result is 40,000 characters. -/
def cfgBig : AgentConfig :=
  { systemPrompt := "sys", maxSteps := 3, planningInterval := none,
    model := fun _ => .ok ⟨.ok "", .ok [tcEcho]⟩,
    toolExec := fun _ => .ok bigObservation,
    managedAgents := [], dec := jsonParse, nid := fun _ => "N" }

def stepBig : StepOut :=
  fcStep cfgBig [.SystemPromptStep "sys", .TaskStep "t"] ⟨0, 0⟩ (AgentStep.new 1 (some "t"))

/-- Scenario: a two-call all-real batch whose second tool fails. -/
def tcBeta : ToolCall := ⟨some "id3", some "function", ⟨"b", .obj .nil⟩⟩

def cfgBatch : AgentConfig :=
  { systemPrompt := "sys", maxSteps := 3, planningInterval := none,
    model := fun _ => .ok ⟨.ok "", .ok [tcEcho, tcBeta]⟩,
    toolExec := fun f => if f.name = "a" then .ok "resA" else .error (.Execution ("boom:" ++ f.name)),
    managedAgents := [], dec := jsonParse, nid := fun _ => "N" }

def stepBatch : StepOut :=
  fcStep cfgBatch [.SystemPromptStep "sys", .TaskStep "t"] ⟨0, 0⟩ (AgentStep.new 1 (some "t"))

/-- The final-answer values of the action steps of a log, in order. -/
def actionFinalAnswers (logs : List Step) : List (Option String) :=
  logs.filterMap (fun s => match s with
    | .ActionStep a => some a.final_answer
    | _ => none)

/-- The action step the empty-model scenario records. -/
def emptyRunActionStep : AgentStep :=
  { step := 1, task := some "t",
    agent_memory := some [Message.plain .System "sys", Message.plain .User "New Task: t"],
    llm_output := some "", tool_call := some [], observations := some [""],
    final_answer := some "", error := none }

/-- The tool call the Gemini conversion produces from an empty-named
function call: its id is the empty string. -/
def gemEmptyToolCall : ToolCall := ⟨some "", some "function", ⟨"", .obj .nil⟩⟩

/-- The call synthesized from the inline block of `cfgInline`. -/
def synthInlineToolCall : ToolCall := ⟨some "call_N", some "function", ⟨"t2", .obj .nil⟩⟩

/-- An action step with matching tool-call and observation lengths,
used by the assembler-safety witness. -/
def goodStep : AgentStep :=
  { step := 1, task := some "t", agent_memory := none, llm_output := some "out",
    tool_call := some [tcEcho], observations := some ["o"], final_answer := none, error := none }

/-- The JSON value parsed from the inline action block of `cfgInline`. -/
def inlineAction : Json :=
  .obj (.cons "name" (.str "t2") (.cons "arguments" (.obj .nil) .nil))

/-! ### Theorems -/

/-- C3: the `PlanningStep` appended to the log carries
(facts redaction, plan redaction), but the value returned — the one
`stream_run` yields verbatim (agent_trait.rs line 275) — carries the
two strings swapped, so the appended and the emitted step differ
whenever facts and plan differ. -/
theorem c3_planning_emit_swapped :
    planFP.state.logs = [.SystemPromptStep "sys", .TaskStep "t",
      .PlanningStep factsRedactionF planRedactionP] ∧
    planFP.result = .ok (some (.PlanningStep planRedactionP factsRedactionF)) ∧
    Step.PlanningStep factsRedactionF planRedactionP ≠
      Step.PlanningStep planRedactionP factsRedactionF := by
  exact ⟨by decide, by decide, by decide⟩

/-- C6 (counterexample): with `max_steps = 2` and a model always
returning empty tool calls and empty text, a run logs ONE action step,
not two, and makes exactly one model call — no recovery call. -/
theorem c6_counterexample :
    actionCount runEmpty.1.logs = 1 ∧ actionCount runEmpty.1.logs ≠ 2 ∧
    runEmpty.1.calls = 1 := by
  exact ⟨by decide, by decide, by decide⟩

/-- C6 (amended): the empty response is taken as the final answer after
the first step: one action step whose `final_answer` is `Some("")`,
one model call in total, and `run` returns the empty string. -/
theorem c6_empty_model_run :
    runEmpty = (⟨[.SystemPromptStep "sys", .TaskStep "t",
      .ActionStep emptyRunActionStep], 2, 1, 0⟩, .ok "") := by
  decide

/-- C8 (counterexample): the Gemini conversion copies the function name
into the id, so a function call whose name is empty puts a ToolCall
with an EMPTY id on the step log — it is not replaced by a generated
id. -/
theorem c8_counterexample :
    stepGemEmpty.log.tool_call = some [gemEmptyToolCall] ∧
    gemEmptyToolCall.id = some "" := by
  exact ⟨by decide, by decide⟩

/-- C10 (counterexample): a mixed real/managed batch records two tool
calls but only one observation; rebuilding the inner memory from a log
holding this step indexes out of bounds, and the full two-step run
panics there. -/
theorem c10_counterexample :
    (stepMixed.log.tool_call.getD []).length = 2 ∧
    (stepMixed.log.observations.getD []).length = 1 ∧
    writeInnerMemory false [.SystemPromptStep "sys", .TaskStep "t",
      .ActionStep stepMixed.log] = none ∧
    runMixed.2 = .panicked := by
  exact ⟨by decide, by decide, by decide, by decide⟩

/-- C5 (counterexample): on the mixed batch `[a-tool, m-agent]` the
stored observations list has length 1, not N = 2 — the managed-agent
call is silently skipped by the real-tool dispatcher. -/
theorem c5_counterexample :
    stepMixed.log.tool_call = some [tcEcho, tcSub] ∧
    stepMixed.log.observations = some ["ran:a"] ∧
    (stepMixed.log.observations.getD []).length ≠
      (stepMixed.log.tool_call.getD []).length := by
  exact ⟨by decide, by decide, by decide⟩

/-- C4 (counterexample): the model returned the structured call of tool
`a`, yet the step dispatched the single call synthesized from the
inline `Action:` block (tool `t2`): inline extraction overrides
structured tool calls instead of being a fallback. -/
theorem c4_counterexample :
    stepInline.log.tool_call = some [synthInlineToolCall] ∧
    stepInline.log.observations = some ["ran:t2"] ∧
    synthInlineToolCall ≠ tcEcho := by
  exact ⟨by decide, by decide, by decide⟩

/-- C7 (counterexample): with `planning_interval = 1` the planner never
runs (`step_number % 1` is never `1`), so a completed run contains no
`PlanningStep` at all. -/
theorem c7_counterexample :
    runPlanOne.2 = .ok "" ∧ planningCount runPlanOne.1.logs = 0 := by
  exact ⟨by decide, by decide⟩

/-- C1 (counterexample): with `max_steps = 3` and no final answer from
the steps, the recovery result `REC` is returned after TWO action
steps, not three: the loop runs while `step_number < max_steps`. -/
theorem c1_counterexample :
    runRecovery.2 = .ok "REC" ∧ actionCount runRecovery.1.logs = 2 ∧
    cfgRecovery.maxSteps = 3 ∧
    actionFinalAnswers runRecovery.1.logs = [none, none] := by
  exact ⟨by decide, by decide, by decide, by decide⟩

/-- C2 (counterexample): a 40,000-character tool result is stored on
the step untruncated — the joined stored observation text exceeds
30,000 characters plus the truncation notice (the truncation in the
source only affects the tracing output, lines 373-391). -/
theorem c2_counterexample :
    30000 + truncationNotice.length < (joinedObservations stepBig.log).length := by
  have h : joinedObservations stepBig.log = bigObservation := rfl
  rw [h]
  have h2 : bigObservation.length = (List.replicate 40000 'a').length := rfl
  rw [h2, List.length_replicate]
  decide



lemma contains_false_of_not_mem {l : List String} {a : String} (h : l.contains a = false) : a ∉ l := by
  simp_all

lemma gatherFutures_all_real (toolExec : FunctionCall → Except AgentError String)
    (managedNames : List String) :
    ∀ ts : List ToolCall,
      (∀ t ∈ ts, t.function.name ≠ "final_answer" ∧
        managedNames.contains t.function.name = false) →
      gatherFutures toolExec managedNames ts = .futures ts := by
  intro ts
  induction ts with
  | nil => intro _; rfl
  | cons t ts ih =>
    intro h
    obtain ⟨h1, h2⟩ := h t (List.mem_cons_self t ts)
    have hrest := ih (fun x hx => h x (List.mem_cons_of_mem _ hx))
    simp [gatherFutures, h1, hrest, contains_false_of_not_mem h2]

lemma dispatchTools_tool_call (cfg : AgentConfig) (cur : Cursors) (log : AgentStep)
    (tools : List ToolCall) :
    (dispatchTools cfg cur log tools).log.tool_call = log.tool_call := by
  unfold dispatchTools
  dsimp only
  split <;> split <;> rfl

lemma dispatchTools_result_ok (cfg : AgentConfig) (cur : Cursors) (log : AgentStep)
    (tools : List ToolCall) :
    ∀ o, (dispatchTools cfg cur log tools).result = .ok o →
      o = some ((dispatchTools cfg cur log tools).log) := by
  unfold dispatchTools
  dsimp only
  split <;> split <;> (intro o h; simp_all)



lemma isEmpty_false_of_ne_nil {α : Type} {l : List α} (h : l ≠ []) : l.isEmpty = false := by
  cases l with
  | nil => exact absurd rfl h
  | cons a as => rfl

lemma afterInline_tool_call_of_ne_nil (cfg : AgentConfig) (logs : List Step) (cur : Cursors)
    (log : AgentStep) (tools : List ToolCall) (responseOk : Option String)
    (h : tools ≠ []) :
    (afterInline cfg logs cur log tools responseOk).log.tool_call = log.tool_call := by
  have hie : tools.isEmpty = false := isEmpty_false_of_ne_nil h
  unfold afterInline
  cases responseOk <;> simp [hie, dispatchTools_tool_call]

lemma afterInline_result_ok (cfg : AgentConfig) (logs : List Step) (cur : Cursors)
    (log : AgentStep) (tools : List ToolCall) (responseOk : Option String) :
    ∀ o, (afterInline cfg logs cur log tools responseOk).result = .ok o →
      o = some ((afterInline cfg logs cur log tools responseOk).log) := by
  unfold afterInline
  cases responseOk <;> dsimp only
  · split
    · intro o h; simp_all
    · exact dispatchTools_result_ok _ _ _ _
  · split
    · split <;> (intro o h; simp_all)
    · exact dispatchTools_result_ok _ _ _ _

lemma fcStep_result_ok (cfg : AgentConfig) (logs : List Step) (cur : Cursors)
    (draft : AgentStep) :
    ∀ o, (fcStep cfg logs cur draft).result = .ok o →
      o = some ((fcStep cfg logs cur draft).log) := by
  unfold fcStep
  split
  · intro o h; simp_all
  · dsimp only
    split
    · intro o h; simp_all
    · split
      · intro o h; simp_all
      · split
        · split
          · exact afterInline_result_ok _ _ _ _ _ _
          · split
            · intro o h; simp_all
            · exact afterInline_result_ok _ _ _ _ _ _
            · exact afterInline_result_ok _ _ _ _ _ _
        · exact afterInline_result_ok _ _ _ _ _ _



lemma find_managed_none (cfg : AgentConfig) (tools : List ToolCall)
    (h : ∀ t ∈ tools, ((cfg.managedAgents.map (fun a => a.1)).contains t.function.name) = false) :
    cfg.managedAgents.find?
      (fun a => (tools.head?.map (fun t => t.function.name)) = some a.1) = none := by
  rw [List.find?_eq_none]
  intro a ha
  cases tools with
  | nil => simp
  | cons t ts =>
    have hm := contains_false_of_not_mem (h t (List.mem_cons_self t ts))
    simp only [List.head?_cons, Option.map_some', decide_eq_true_eq, Option.some.injEq]
    intro heq
    apply hm
    rw [heq]
    exact List.mem_map_of_mem (fun a => a.1) ha

lemma fcStep_real_batch (cfg : AgentConfig) (logs : List Step) (cur : Cursors)
    (draft : AgentStep) (resp : ModelResponseV) (cs : List ToolCall) (r : String)
    (hw : (writeInnerMemory false logs).isSome)
    (hm : cfg.model cur.calls = .ok resp)
    (hr : resp.response = .ok r)
    (hrt : (rustTrim r).isEmpty = true)
    (ht : resp.toolsUsed = .ok cs)
    (hne : cs ≠ [])
    (hfa : ∀ t ∈ cs, t.function.name ≠ "final_answer")
    (hnm : ∀ t ∈ cs, ((cfg.managedAgents.map (fun a => a.1)).contains t.function.name) = false) :
    (fcStep cfg logs cur draft).log.tool_call = some cs ∧
    (fcStep cfg logs cur draft).log.observations = some (cs.map (toolObservation cfg.toolExec)) := by
  obtain ⟨mem, hmem⟩ := Option.isSome_iff_exists.mp hw
  have hie : cs.isEmpty = false := isEmpty_false_of_ne_nil hne
  have hfind := find_managed_none cfg cs hnm
  have hgather := gatherFutures_all_real cfg.toolExec (cfg.managedAgents.map (fun a => a.1)) cs
    (fun t htm => ⟨hfa t htm, hnm t htm⟩)
  constructor <;>
    simp only [fcStep, afterInline, dispatchTools, hmem, hm, ht, hr, hrt, hie, hfind, hgather,
      if_true, if_false, Bool.false_eq_true]



lemma planningStep_not_first (cfg : AgentConfig) (st : RunState) :
    planningStep cfg st false = ⟨st, .ok none⟩ := rfl

lemma planningStep_ok_first (cfg : AgentConfig) (st : RunState) :
    ∀ stP o, planningStep cfg st true = ⟨stP, .ok o⟩ →
      ∃ facts plan, stP.logs = st.logs ++ [Step.PlanningStep facts plan] ∧
        o = some (Step.PlanningStep plan facts) ∧
        stP.stepNumber = st.stepNumber ∧ stP.ids = st.ids ∧ stP.calls = st.calls + 2 := by
  intro stP o h
  unfold planningStep at h
  rw [if_pos rfl] at h
  cases hW : writeInnerMemory false st.logs with
  | none =>
    rw [hW] at h; dsimp only at h
    exact Outcome.noConfusion (congrArg PlanOut.result h)
  | some mem =>
    rw [hW] at h
    dsimp only at h
    by_cases hE : mem.isEmpty = true
    · rw [if_pos hE] at h
      exact Outcome.noConfusion (congrArg PlanOut.result h)
    · rw [if_neg hE] at h
      cases hMF : cfg.model st.calls with
      | error e =>
        rw [hMF] at h; dsimp only at h
        exact Outcome.noConfusion (congrArg PlanOut.result h)
      | ok respF =>
        rw [hMF] at h; dsimp only at h
        cases hRF : respF.response with
        | error e =>
          rw [hRF] at h; dsimp only at h
          exact Outcome.noConfusion (congrArg PlanOut.result h)
        | ok answerF =>
          rw [hRF] at h; dsimp only at h
          cases hMP : cfg.model (st.calls + 1) with
          | error e =>
            rw [hMP] at h; dsimp only at h
            exact Outcome.noConfusion (congrArg PlanOut.result h)
          | ok respP =>
            rw [hMP] at h; dsimp only at h
            cases hRP : respP.response with
            | error e =>
              rw [hRP] at h; dsimp only at h
              exact Outcome.noConfusion (congrArg PlanOut.result h)
            | ok answerP =>
              rw [hRP] at h; dsimp only at h
              rw [PlanOut.mk.injEq] at h
              obtain ⟨h1, h2⟩ := h
              injection h2 with h2
              subst h1
              subst h2
              exact ⟨_, _, rfl, rfl, rfl, rfl, rfl⟩

lemma provideFinalAnswer_ok (cfg : AgentConfig) (st : RunState) :
    ∀ st2 r, provideFinalAnswer cfg st = (st2, .ok r) →
      st2.logs = st.logs ∧ st2.stepNumber = st.stepNumber ∧ st2.calls = st.calls + 1 ∧
      ∃ mres, cfg.model st.calls = .ok mres ∧ mres.response = .ok r := by
  intro st2 r h
  unfold provideFinalAnswer at h
  cases hW : writeInnerMemory false st.logs with
  | none =>
    rw [hW] at h; dsimp only at h
    exact Outcome.noConfusion (congrArg Prod.snd h)
  | some mem =>
    rw [hW] at h
    dsimp only at h
    by_cases hE : mem.isEmpty = true
    · rw [if_pos hE] at h
      exact Outcome.noConfusion (congrArg Prod.snd h)
    · rw [if_neg hE] at h
      cases hM : cfg.model st.calls with
      | error e =>
        rw [hM] at h; dsimp only at h
        exact Outcome.noConfusion (congrArg Prod.snd h)
      | ok resp =>
        rw [hM] at h; dsimp only at h
        cases hR : resp.response with
        | error e =>
          rw [hR] at h; dsimp only at h
          exact Outcome.noConfusion (congrArg Prod.snd h)
        | ok rr =>
          rw [hR] at h; dsimp only at h
          rw [Prod.mk.injEq] at h
          obtain ⟨h1, h2⟩ := h
          injection h2 with h2
          subst h1
          subst h2
          exact ⟨rfl, rfl, rfl, resp, rfl, hR⟩



lemma directRunLoop_some_input (stepFn : AgentConfig → List Step → Cursors → AgentStep → StepOut)
    (cfg : AgentConfig) (task : String) :
    ∀ fuel st x, directRunLoop stepFn cfg task fuel st (some x) = (st, .ok (some x)) := by
  intro fuel st x
  cases fuel with
  | zero => rfl
  | succ fuel => simp [directRunLoop]

lemma directRunLoop_ok_some (cfg : AgentConfig) (task : String) :
    ∀ fuel st fa st' x,
      directRunLoop fcStep cfg task fuel st fa = (st', .ok (some x)) →
      (fa = some x ∧ st' = st) ∨
      (∃ pre s, st'.logs = pre ++ [Step.ActionStep s] ∧ s.final_answer = some x) := by
  intro fuel
  induction fuel with
  | zero =>
    intro st fa st' x h
    rw [directRunLoop] at h
    rw [Prod.mk.injEq] at h
    obtain ⟨h1, h2⟩ := h
    injection h2 with h2
    exact Or.inl ⟨h2, h1.symm⟩
  | succ fuel ih =>
    intro st fa st' x h
    rw [directRunLoop] at h
    by_cases hc : (fa.isNone = true ∧ st.stepNumber < cfg.maxSteps)
    case neg =>
      rw [if_neg hc] at h
      rw [Prod.mk.injEq] at h
      obtain ⟨h1, h2⟩ := h
      injection h2 with h2
      exact Or.inl ⟨h2, h1.symm⟩
    case pos =>
      rw [if_pos hc] at h
      dsimp only at h
      rcases hPI : cfg.planningInterval with _ | k
      · rw [hPI] at h
        dsimp only at h
        rcases hS : fcStep cfg st.logs ⟨st.calls, st.ids⟩ (AgentStep.new st.stepNumber (some task))
          with ⟨cur2, log, res2⟩
        rw [hS] at h
        cases res2 with
        | panicked => exact Outcome.noConfusion (congrArg Prod.snd h)
        | err e => exact Outcome.noConfusion (congrArg Prod.snd h)
        | ok ret =>
          have hres : (fcStep cfg st.logs ⟨st.calls, st.ids⟩
              (AgentStep.new st.stepNumber (some task))).result = .ok ret := by rw [hS]
          have hret := fcStep_result_ok _ _ _ _ ret hres
          have hlog : (fcStep cfg st.logs ⟨st.calls, st.ids⟩
              (AgentStep.new st.stepNumber (some task))).log = log := by rw [hS]
          rw [hlog] at hret
          subst hret
          dsimp only at h
          rcases ih _ _ _ _ h with ⟨hfa, hst⟩ | ⟨pre, s, hlogs, hfa2⟩
          · right
            refine ⟨st.logs, log, ?_, hfa⟩
            rw [hst]
          · exact Or.inr ⟨pre, s, hlogs, hfa2⟩
      · rw [hPI] at h
        dsimp only at h
        by_cases hMod : st.stepNumber % k = 1
        case neg =>
          rw [if_neg hMod] at h
          dsimp only at h
          rcases hS : fcStep cfg st.logs ⟨st.calls, st.ids⟩ (AgentStep.new st.stepNumber (some task))
            with ⟨cur2, log, res2⟩
          rw [hS] at h
          cases res2 with
          | panicked => exact Outcome.noConfusion (congrArg Prod.snd h)
          | err e => exact Outcome.noConfusion (congrArg Prod.snd h)
          | ok ret =>
            have hres : (fcStep cfg st.logs ⟨st.calls, st.ids⟩
                (AgentStep.new st.stepNumber (some task))).result = .ok ret := by rw [hS]
            have hret := fcStep_result_ok _ _ _ _ ret hres
            have hlog : (fcStep cfg st.logs ⟨st.calls, st.ids⟩
                (AgentStep.new st.stepNumber (some task))).log = log := by rw [hS]
            rw [hlog] at hret
            subst hret
            dsimp only at h
            rcases ih _ _ _ _ h with ⟨hfa, hst⟩ | ⟨pre, s, hlogs, hfa2⟩
            · right
              refine ⟨st.logs, log, ?_, hfa⟩
              rw [hst]
            · exact Or.inr ⟨pre, s, hlogs, hfa2⟩
        case pos =>
          rw [if_pos hMod] at h
          rcases hP : planningStep cfg st (st.stepNumber = 1) with ⟨stP, resP⟩
          rw [hP] at h
          cases resP with
          | panicked => exact Outcome.noConfusion (congrArg Prod.snd h)
          | err e => exact Outcome.noConfusion (congrArg Prod.snd h)
          | ok u =>
            dsimp only at h
            rcases hS : fcStep cfg stP.logs ⟨stP.calls, stP.ids⟩ (AgentStep.new st.stepNumber (some task))
              with ⟨cur2, log, res2⟩
            rw [hS] at h
            cases res2 with
            | panicked => exact Outcome.noConfusion (congrArg Prod.snd h)
            | err e => exact Outcome.noConfusion (congrArg Prod.snd h)
            | ok ret =>
              have hres : (fcStep cfg stP.logs ⟨stP.calls, stP.ids⟩
                  (AgentStep.new st.stepNumber (some task))).result = .ok ret := by rw [hS]
              have hret := fcStep_result_ok _ _ _ _ ret hres
              have hlog : (fcStep cfg stP.logs ⟨stP.calls, stP.ids⟩
                  (AgentStep.new st.stepNumber (some task))).log = log := by rw [hS]
              rw [hlog] at hret
              subst hret
              dsimp only at h
              rcases ih _ _ _ _ h with ⟨hfa, hst⟩ | ⟨pre, s, hlogs, hfa2⟩
              · right
                refine ⟨stP.logs, log, ?_, hfa⟩
                rw [hst]
              · exact Or.inr ⟨pre, s, hlogs, hfa2⟩



lemma actionCount_append (a b : List Step) :
    actionCount (a ++ b) = actionCount a + actionCount b := by
  simp [actionCount, List.filter_append]

lemma actionCount_action (l : List Step) (s : AgentStep) :
    actionCount (l ++ [Step.ActionStep s]) = actionCount l + 1 := by
  simp [actionCount_append, actionCount, isActionStep]

lemma actionCount_planning (l : List Step) (f p : String) :
    actionCount (l ++ [Step.PlanningStep f p]) = actionCount l := by
  simp [actionCount_append, actionCount, isActionStep]

lemma planningStep_invoke (cfg : AgentConfig) (st : RunState) (b : Bool) :
    ∀ stP o, planningStep cfg st b = ⟨stP, .ok o⟩ →
      actionCount stP.logs = actionCount st.logs ∧ stP.stepNumber = st.stepNumber := by
  cases b with
  | false =>
    intro stP o h
    rw [planningStep_not_first] at h
    rw [PlanOut.mk.injEq] at h
    rw [← h.1]
    exact ⟨rfl, rfl⟩
  | true =>
    intro stP o h
    obtain ⟨f, p, hlogs, _, hsn, _, _⟩ := planningStep_ok_first _ _ _ _ h
    rw [hlogs, actionCount_planning]
    exact ⟨rfl, hsn⟩

lemma directRunLoop_ok_none (cfg : AgentConfig) (task : String) :
    ∀ fuel st st',
      cfg.maxSteps ≤ st.stepNumber + fuel →
      directRunLoop fcStep cfg task fuel st none = (st', .ok none) →
      actionCount st'.logs = actionCount st.logs + (cfg.maxSteps - st.stepNumber) ∧
      cfg.maxSteps ≤ st'.stepNumber := by
  intro fuel
  induction fuel with
  | zero =>
    intro st st' hfuel h
    rw [directRunLoop] at h
    rw [Prod.mk.injEq] at h
    obtain ⟨h1, _⟩ := h
    subst h1
    constructor
    · omega
    · omega
  | succ fuel ih =>
    intro st st' hfuel h
    rw [directRunLoop] at h
    by_cases hc : ((none : Option String).isNone = true ∧ st.stepNumber < cfg.maxSteps)
    case neg =>
      rw [if_neg hc] at h
      rw [Prod.mk.injEq] at h
      obtain ⟨h1, _⟩ := h
      subst h1
      have hge : ¬ st.stepNumber < cfg.maxSteps := fun hlt => hc ⟨rfl, hlt⟩
      constructor
      · omega
      · omega
    case pos =>
      rw [if_pos hc] at h
      dsimp only at h
      obtain ⟨-, hlt⟩ := hc
      -- resolve the planning block into a state st1 with count and step number facts
      rcases hPI : cfg.planningInterval with _ | k
      all_goals rw [hPI] at h
      all_goals dsimp only at h
      -- case: no planning interval
      · rcases hS : fcStep cfg st.logs ⟨st.calls, st.ids⟩ (AgentStep.new st.stepNumber (some task))
          with ⟨cur2, log, res2⟩
        rw [hS] at h
        cases res2 with
        | panicked => exact Outcome.noConfusion (congrArg Prod.snd h)
        | err e => exact Outcome.noConfusion (congrArg Prod.snd h)
        | ok ret =>
          have hres : (fcStep cfg st.logs ⟨st.calls, st.ids⟩
              (AgentStep.new st.stepNumber (some task))).result = .ok ret := by rw [hS]
          have hret := fcStep_result_ok _ _ _ _ ret hres
          have hlog : (fcStep cfg st.logs ⟨st.calls, st.ids⟩
              (AgentStep.new st.stepNumber (some task))).log = log := by rw [hS]
          rw [hlog] at hret
          subst hret
          dsimp only at h
          cases hfa : log.final_answer with
          | some x =>
            rw [hfa, directRunLoop_some_input] at h
            injection congrArg Prod.snd h with h2
            exact absurd h2 (by simp)
          | none =>
            rw [hfa] at h
            obtain ⟨hcount, hsn⟩ := ih _ _ (by dsimp only; omega) h
            dsimp only at hcount hsn
            rw [actionCount_action] at hcount
            refine ⟨?_, hsn⟩
            rw [hcount]
            omega
      -- case: planning interval k
      · by_cases hMod : st.stepNumber % k = 1
        case neg =>
          rw [if_neg hMod] at h
          dsimp only at h
          rcases hS : fcStep cfg st.logs ⟨st.calls, st.ids⟩ (AgentStep.new st.stepNumber (some task))
            with ⟨cur2, log, res2⟩
          rw [hS] at h
          cases res2 with
          | panicked => exact Outcome.noConfusion (congrArg Prod.snd h)
          | err e => exact Outcome.noConfusion (congrArg Prod.snd h)
          | ok ret =>
            have hres : (fcStep cfg st.logs ⟨st.calls, st.ids⟩
                (AgentStep.new st.stepNumber (some task))).result = .ok ret := by rw [hS]
            have hret := fcStep_result_ok _ _ _ _ ret hres
            have hlog : (fcStep cfg st.logs ⟨st.calls, st.ids⟩
                (AgentStep.new st.stepNumber (some task))).log = log := by rw [hS]
            rw [hlog] at hret
            subst hret
            dsimp only at h
            cases hfa : log.final_answer with
            | some x =>
              rw [hfa, directRunLoop_some_input] at h
              injection congrArg Prod.snd h with h2
              exact absurd h2 (by simp)
            | none =>
              rw [hfa] at h
              obtain ⟨hcount, hsn⟩ := ih _ _ (by dsimp only; omega) h
              dsimp only at hcount hsn
              rw [actionCount_action] at hcount
              refine ⟨?_, hsn⟩
              rw [hcount]
              omega
        case pos =>
          rw [if_pos hMod] at h
          rcases hP : planningStep cfg st (st.stepNumber = 1) with ⟨stP, resP⟩
          rw [hP] at h
          cases resP with
          | panicked => exact Outcome.noConfusion (congrArg Prod.snd h)
          | err e => exact Outcome.noConfusion (congrArg Prod.snd h)
          | ok u =>
            obtain ⟨hPC, hPS⟩ := planningStep_invoke cfg st _ stP u hP
            dsimp only at h
            rcases hS : fcStep cfg stP.logs ⟨stP.calls, stP.ids⟩ (AgentStep.new st.stepNumber (some task))
              with ⟨cur2, log, res2⟩
            rw [hS] at h
            cases res2 with
            | panicked => exact Outcome.noConfusion (congrArg Prod.snd h)
            | err e => exact Outcome.noConfusion (congrArg Prod.snd h)
            | ok ret =>
              have hres : (fcStep cfg stP.logs ⟨stP.calls, stP.ids⟩
                  (AgentStep.new st.stepNumber (some task))).result = .ok ret := by rw [hS]
              have hret := fcStep_result_ok _ _ _ _ ret hres
              have hlog : (fcStep cfg stP.logs ⟨stP.calls, stP.ids⟩
                  (AgentStep.new st.stepNumber (some task))).log = log := by rw [hS]
              rw [hlog] at hret
              subst hret
              dsimp only at h
              cases hfa : log.final_answer with
              | some x =>
                rw [hfa, directRunLoop_some_input] at h
                injection congrArg Prod.snd h with h2
                exact absurd h2 (by simp)
              | none =>
                rw [hfa] at h
                obtain ⟨hcount, hsn⟩ := ih _ _ (by dsimp only; omega) h
                dsimp only at hcount hsn
                rw [actionCount_action] at hcount
                refine ⟨?_, hsn⟩
                rw [hcount, hPC]
                omega



lemma directRunLoop_only_actions (cfg : AgentConfig) (task : String) :
    ∀ fuel st fa st' out, 2 ≤ st.stepNumber →
      directRunLoop fcStep cfg task fuel st fa = (st', out) →
      ∃ suf, st'.logs = st.logs ++ suf ∧ ∀ s ∈ suf, isActionStep s = true := by
  intro fuel
  induction fuel with
  | zero =>
    intro st fa st' out h2 h
    rw [directRunLoop, Prod.mk.injEq] at h
    obtain ⟨h1, -⟩ := h
    subst h1
    exact ⟨[], by simp, by simp⟩
  | succ fuel ih =>
    intro st fa st' out h2 h
    rw [directRunLoop] at h
    by_cases hc : (fa.isNone = true ∧ st.stepNumber < cfg.maxSteps)
    case neg =>
      rw [if_neg hc, Prod.mk.injEq] at h
      obtain ⟨h1, -⟩ := h
      subst h1
      exact ⟨[], by simp, by simp⟩
    case pos =>
      rw [if_pos hc] at h
      dsimp only at h
      have hsn : ¬ (st.stepNumber = 1) := by omega
      have hb : decide (st.stepNumber = 1) = false := decide_eq_false hsn
      have hstep : ∀ st1 : RunState, st1 = st →
          (match fcStep cfg st1.logs ⟨st1.calls, st1.ids⟩ (AgentStep.new st.stepNumber (some task)) with
            | ⟨cur2, _, .panicked⟩ => ({ st1 with calls := cur2.calls, ids := cur2.ids }, Outcome.panicked)
            | ⟨cur2, _, .err e⟩ => ({ st1 with calls := cur2.calls, ids := cur2.ids }, Outcome.err e)
            | ⟨cur2, log, .ok ret⟩ =>
              directRunLoop fcStep cfg task fuel
                { st1 with calls := cur2.calls, ids := cur2.ids,
                           logs := st1.logs ++ [Step.ActionStep log],
                           stepNumber := st1.stepNumber + 1 }
                (match ret with | some s => s.final_answer | none => fa)) = (st', out) →
          ∃ suf, st'.logs = st.logs ++ suf ∧ ∀ s ∈ suf, isActionStep s = true := by
        intro st1 hst1 hh
        subst hst1
        rcases hS : fcStep cfg st1.logs ⟨st1.calls, st1.ids⟩ (AgentStep.new st1.stepNumber (some task))
          with ⟨cur2, log, res2⟩
        rw [hS] at hh
        cases res2 with
        | panicked =>
          rw [Prod.mk.injEq] at hh
          obtain ⟨h1, -⟩ := hh
          rw [← h1]
          exact ⟨[], by simp, by simp⟩
        | err e =>
          rw [Prod.mk.injEq] at hh
          obtain ⟨h1, -⟩ := hh
          rw [← h1]
          exact ⟨[], by simp, by simp⟩
        | ok ret =>
          obtain ⟨suf, hlogs, hall⟩ := ih _ _ _ _ (by dsimp only; omega) hh
          dsimp only at hlogs
          refine ⟨Step.ActionStep log :: suf, ?_, ?_⟩
          · rw [hlogs]
            simp
          · intro s hs
            rcases List.mem_cons.mp hs with h | h
            · subst h; rfl
            · exact hall _ h
      rcases hPI : cfg.planningInterval with _ | k
      all_goals rw [hPI] at h
      all_goals dsimp only at h
      · exact hstep st rfl h
      · by_cases hMod : st.stepNumber % k = 1
        case pos =>
          rw [if_pos hMod, hb, planningStep_not_first] at h
          dsimp only at h
          exact hstep st rfl h
        case neg =>
          rw [if_neg hMod] at h
          dsimp only at h
          exact hstep st rfl h



lemma planningCount_append (a b : List Step) :
    planningCount (a ++ b) = planningCount a + planningCount b := by
  simp [planningCount, List.filter_append]

lemma planningCount_zero_of_actions (l : List Step)
    (h : ∀ s ∈ l, isActionStep s = true) : planningCount l = 0 := by
  induction l with
  | nil => rfl
  | cons s l ih =>
    have hs := h s (List.mem_cons_self s l)
    have hl := ih (fun x hx => h x (List.mem_cons_of_mem _ hx))
    cases s <;> simp_all [planningCount, isActionStep, isPlanningStep, List.filter_cons]

/-- C1 (amended): for every successful `run` of the function-calling
agent, either the last appended log entry is an `ActionStep` whose
`final_answer` is `Some(r)` and `run` returned `r`, or `run` returned
the recovery-prompt result (one extra model call) after exactly
`max_steps - 1` action steps were appended — the loop runs while
`step_number < max_steps` starting from 1, not `≤` as the spec says. -/
theorem c1_run_termination (cfg : AgentConfig) (task : String) (reset : Bool)
    (st0 st' : RunState) (r : String)
    (h : runAgent fcStep cfg task reset st0 = (st', .ok r)) :
    (∃ pre s, st'.logs = pre ++ [Step.ActionStep s] ∧ s.final_answer = some r) ∨
    (actionCount st'.logs = actionCount (initState cfg task reset st0).logs + (cfg.maxSteps - 1) ∧
     ∃ mres, cfg.model (st'.calls - 1) = .ok mres ∧ mres.response = .ok r) := by
  unfold runAgent directRun at h
  rcases hL : directRunLoop fcStep cfg task cfg.maxSteps (initState cfg task reset st0) none
    with ⟨stL, outL⟩
  rw [hL] at h
  cases outL with
  | panicked => exact Outcome.noConfusion (congrArg Prod.snd h)
  | err e => exact Outcome.noConfusion (congrArg Prod.snd h)
  | ok fa =>
    dsimp only at h
    cases fa with
    | some x =>
      rw [if_neg (by simp)] at h
      rw [Prod.mk.injEq] at h
      obtain ⟨h1, h2⟩ := h
      injection h2 with h2
      rcases directRunLoop_ok_some cfg task _ _ _ _ _ hL with ⟨hbad, -⟩ | ⟨pre, s, hlogs, hfa⟩
      · exact Option.noConfusion hbad
      · left
        refine ⟨pre, s, ?_, ?_⟩
        · rw [← h1]; exact hlogs
        · rw [hfa]
          simp only [Option.getD_some] at h2
          rw [h2]
    | none =>
      have h1sn : (initState cfg task reset st0).stepNumber = 1 := rfl
      by_cases hge : cfg.maxSteps ≤ stL.stepNumber
      case pos =>
        rw [if_pos ⟨rfl, hge⟩] at h
        rcases hF : provideFinalAnswer cfg stL with ⟨st2, res2⟩
        rw [hF] at h
        cases res2 with
        | panicked => exact Outcome.noConfusion (congrArg Prod.snd h)
        | err e => exact Outcome.noConfusion (congrArg Prod.snd h)
        | ok rr =>
          rw [Prod.mk.injEq] at h
          obtain ⟨h1, h2⟩ := h
          injection h2 with h2
          obtain ⟨hlogs, hsn2, hcalls, mres, hmod, hresp⟩ := provideFinalAnswer_ok cfg stL st2 rr hF
          obtain ⟨hcount, -⟩ := directRunLoop_ok_none cfg task cfg.maxSteps _ _ (by omega) hL
          right
          constructor
          · rw [← h1, hlogs, hcount, h1sn]
          · refine ⟨mres, ?_, ?_⟩
            · rw [← h1, hcalls]
              simpa using hmod
            · rw [hresp, h2]
      case neg =>
        obtain ⟨-, hge2⟩ := directRunLoop_ok_none cfg task cfg.maxSteps _ _ (by omega) hL
        exact absurd hge2 hge



/-- C7 (amended): for `planning_interval = k ≥ 2` and `max_steps ≥ 2`,
a successful reset run produces exactly one `PlanningStep`, and it
precedes the first `ActionStep` of the task; for `k = 1` the planner
never fires, because `step_number % 1` is never `1` (see the
counterexample). -/
theorem c7_single_planning_step (cfg : AgentConfig) (k : Nat) (task : String)
    (st0 st' : RunState) (r : String)
    (hk : cfg.planningInterval = some k) (h2k : 2 ≤ k) (hms : 2 ≤ cfg.maxSteps)
    (hrun : runAgent fcStep cfg task true st0 = (st', .ok r)) :
    ∃ facts plan rest,
      st'.logs = [Step.SystemPromptStep cfg.systemPrompt, Step.TaskStep task,
        Step.PlanningStep facts plan] ++ rest ∧
      (∀ s ∈ rest, isActionStep s = true) ∧
      planningCount st'.logs = 1 := by
  unfold runAgent directRun at hrun
  rcases hL : directRunLoop fcStep cfg task cfg.maxSteps (initState cfg task true st0) none
    with ⟨stL, outL⟩
  rw [hL] at hrun
  cases outL with
  | panicked => exact Outcome.noConfusion (congrArg Prod.snd hrun)
  | err e => exact Outcome.noConfusion (congrArg Prod.snd hrun)
  | ok fa =>
    dsimp only at hrun
    -- the final state has the loop's log
    have hlogs' : st'.logs = stL.logs := by
      cases fa with
      | some x =>
        rw [if_neg (by simp)] at hrun
        rw [Prod.mk.injEq] at hrun
        rw [← hrun.1]
      | none =>
        by_cases hge : cfg.maxSteps ≤ stL.stepNumber
        case pos =>
          rw [if_pos ⟨rfl, hge⟩] at hrun
          rcases hF : provideFinalAnswer cfg stL with ⟨st2, res2⟩
          rw [hF] at hrun
          cases res2 with
          | panicked => exact Outcome.noConfusion (congrArg Prod.snd hrun)
          | err e => exact Outcome.noConfusion (congrArg Prod.snd hrun)
          | ok rr =>
            rw [Prod.mk.injEq] at hrun
            obtain ⟨hlogs, -, -, -⟩ := provideFinalAnswer_ok cfg stL st2 rr hF
            rw [← hrun.1, hlogs]
        case neg =>
          rw [if_neg (fun hx => hge hx.2)] at hrun
          rw [Prod.mk.injEq] at hrun
          rw [← hrun.1]
    -- unfold the first loop iteration
    obtain ⟨m, hm2⟩ : ∃ m, cfg.maxSteps = m + 2 := ⟨cfg.maxSteps - 2, by omega⟩
    rw [hm2] at hL
    rw [directRunLoop] at hL
    rw [if_pos (by exact ⟨rfl, by show (1:Nat) < cfg.maxSteps; omega⟩)] at hL
    dsimp only at hL
    rw [hk] at hL
    dsimp only at hL
    have hmod : (initState cfg task true st0).stepNumber % k = 1 := by
      show 1 % k = 1
      exact Nat.mod_eq_of_lt (by omega)
    rw [if_pos hmod] at hL
    have hbt : decide ((initState cfg task true st0).stepNumber = 1) = true := rfl
    rw [hbt] at hL
    rcases hP : planningStep cfg (initState cfg task true st0) true with ⟨stP, resP⟩
    rw [hP] at hL
    cases resP with
    | panicked => exact Outcome.noConfusion (congrArg Prod.snd hL)
    | err e => exact Outcome.noConfusion (congrArg Prod.snd hL)
    | ok u =>
      obtain ⟨facts, plan, hPlogs, -, hPsn, -, -⟩ := planningStep_ok_first _ _ _ _ hP
      dsimp only at hL
      rcases hS : fcStep cfg stP.logs ⟨stP.calls, stP.ids⟩
          (AgentStep.new (initState cfg task true st0).stepNumber (some task))
        with ⟨cur2, log, res2⟩
      rw [hS] at hL
      cases res2 with
      | panicked => exact Outcome.noConfusion (congrArg Prod.snd hL)
      | err e => exact Outcome.noConfusion (congrArg Prod.snd hL)
      | ok ret =>
        have h1sn : (initState cfg task true st0).stepNumber = 1 := rfl
        obtain ⟨suf, hsuf, hall⟩ :=
          directRunLoop_only_actions cfg task _ _ _ _ _ (by dsimp only; omega) hL
        dsimp only at hsuf
        have hinitlogs : (initState cfg task true st0).logs =
            [Step.SystemPromptStep cfg.systemPrompt, Step.TaskStep task] := rfl
        refine ⟨facts, plan, Step.ActionStep log :: suf, ?_, ?_, ?_⟩
        · rw [hlogs', hsuf, hPlogs, hinitlogs]
          simp
        · intro s hs
          rcases List.mem_cons.mp hs with hh | hh
          · subst hh; rfl
          · exact hall _ hh
        · rw [hlogs', hsuf, hPlogs, hinitlogs]
          have hz := planningCount_zero_of_actions suf hall
          simp [planningCount_append, hz, planningCount, isPlanningStep, List.filter_cons]
          intro a ha
          have hact := hall a ha
          cases a <;> simp_all [isActionStep]


/-- C2 (amended): after a function-calling agent step that dispatches
a real-tool batch, the observation text stored on the `ActionStep` is
exactly the joined collected tool results, UNTRUNCATED: the
30,000-character truncation with trailing notice in the source is
applied only to the tracing output, never to the stored value. -/
theorem c2_stored_untruncated (cfg : AgentConfig) (logs : List Step) (cur : Cursors)
    (draft : AgentStep) (resp : ModelResponseV) (cs : List ToolCall) (r : String)
    (hw : (writeInnerMemory false logs).isSome)
    (hm : cfg.model cur.calls = .ok resp)
    (hr : resp.response = .ok r)
    (hrt : (rustTrim r).isEmpty = true)
    (ht : resp.toolsUsed = .ok cs)
    (hne : cs ≠ [])
    (hfa : ∀ t ∈ cs, t.function.name ≠ "final_answer")
    (hnm : ∀ t ∈ cs, ((cfg.managedAgents.map (fun a => a.1)).contains t.function.name) = false) :
    joinedObservations (fcStep cfg logs cur draft).log =
      String.intercalate "\n" (cs.map (toolObservation cfg.toolExec)) := by
  obtain ⟨-, hobs⟩ := fcStep_real_batch cfg logs cur draft resp cs r hw hm hr hrt ht hne hfa hnm
  rw [joinedObservations, hobs]
  rfl

/-- C5 (amended): when the model returns a batch `cs` of N tool calls
that are all real tools (none named `final_answer`, none naming a
managed sub-agent), the stored observations list has length N and
entry i is the result (or stringified error) of call i.  With managed
calls mixed in the invariant fails (see the counterexample): such
calls are skipped and contribute no observation slot. -/
theorem c5_batch_order (cfg : AgentConfig) (logs : List Step) (cur : Cursors)
    (draft : AgentStep) (resp : ModelResponseV) (cs : List ToolCall) (r : String)
    (hw : (writeInnerMemory false logs).isSome)
    (hm : cfg.model cur.calls = .ok resp)
    (hr : resp.response = .ok r)
    (hrt : (rustTrim r).isEmpty = true)
    (ht : resp.toolsUsed = .ok cs)
    (hne : cs ≠ [])
    (hfa : ∀ t ∈ cs, t.function.name ≠ "final_answer")
    (hnm : ∀ t ∈ cs, ((cfg.managedAgents.map (fun a => a.1)).contains t.function.name) = false) :
    ((fcStep cfg logs cur draft).log.observations.getD []).length = cs.length ∧
    ∀ i (hi : i < cs.length)
      (hj : i < ((fcStep cfg logs cur draft).log.observations.getD []).length),
      ((fcStep cfg logs cur draft).log.observations.getD []).get ⟨i, hj⟩ =
        toolObservation cfg.toolExec (cs.get ⟨i, hi⟩) := by
  obtain ⟨-, hobs⟩ := fcStep_real_batch cfg logs cur draft resp cs r hw hm hr hrt ht hne hfa hnm
  rw [hobs]
  constructor
  · simp
  · intro i hi hj
    simp

/-- C4 (amended): inline extraction takes precedence over structured
tool calls.  Whenever the model response text is non-empty after
trimming and holds a parsable `Action:`/`<tool_call>` JSON block, the
step dispatches exactly the single synthesized call — even when the
model also returned structured tool calls `cs`. -/
theorem c4_inline_precedence (cfg : AgentConfig) (logs : List Step) (cur : Cursors)
    (draft : AgentStep) (resp : ModelResponseV) (cs : List ToolCall) (r : String) (action : Json)
    (hw : (writeInnerMemory false logs).isSome)
    (hm : cfg.model cur.calls = .ok resp)
    (ht : resp.toolsUsed = .ok cs)
    (hr : resp.response = .ok r)
    (hrt : (rustTrim r).isEmpty = false)
    (hp : parseResponse cfg.dec r = some (.ok action)) :
    (fcStep cfg logs cur draft).log.tool_call =
      some [synthToolCall (cfg.nid cur.ids) action] := by
  obtain ⟨mem, hmem⟩ := Option.isSome_iff_exists.mp hw
  simp only [fcStep, hmem, hm, ht, hr, hrt, hp, Bool.false_eq_true, if_false]
  rw [afterInline_tool_call_of_ne_nil _ _ _ _ _ _ (by simp)]

/-- C8 (amended): tool calls deserialized on the OpenAI path always
carry a generated non-empty id when the wire id was missing, null or
empty (given the nanoid generator returns a non-empty string, which
`nanoid!(16)` does), and calls synthesized by the agent carry a
non-empty `call_`-prefixed id; the Gemini path however copies the
function NAME into the id, so its ids are non-empty only when the
name is (see the counterexample). -/
theorem c8_tool_id_nonempty (nidStr : String) (hn : nidStr ≠ "") :
    (∀ wire, ∃ s, toolIdFromWire nidStr wire = some s ∧ s ≠ "") ∧
    (∀ action, (synthToolCall nidStr action).id = some ("call_" ++ nidStr) ∧
      "call_" ++ nidStr ≠ "") ∧
    (∀ parts, (geminiGetToolsUsed parts).map (fun tc => tc.id) =
      (parts.filterMap (fun p => p.function_call)).map (fun fc => some fc.1)) := by
  refine ⟨?_, ?_, ?_⟩
  · intro wire
    rcases wire with _ | w
    · exact ⟨nidStr, rfl, hn⟩
    · rcases w with _ | id
      · exact ⟨nidStr, rfl, hn⟩
      · by_cases hid : id.isEmpty = true
        · refine ⟨nidStr, ?_, hn⟩
          simp [toolIdFromWire, hid]
        · refine ⟨id, ?_, ?_⟩
          · simp [toolIdFromWire, hid]
          · intro heq
            rw [heq] at hid
            exact hid rfl
  · intro action
    refine ⟨rfl, ?_⟩
    intro heq
    have hlen := congrArg String.length heq
    rw [String.length_append] at hlen
    have h5 : "call_".length = 5 := rfl
    have h0 : "".length = 0 := rfl
    omega
  · intro parts
    simp only [geminiGetToolsUsed, List.map_map]
    rfl

/-- C9: for every tool call whose `arguments` is a JSON object, one
serialize-then-deserialize cycle of the `FunctionCall` yields the
identical object (not a string): the wire `arguments` field is always
a JSON string, and deserialization reparses it into the structured
value.  `enc`/`dec` are the external serde_json encoder and parser;
the hypothesis is their round-trip contract at the given value, which
the witness discharges with the executable codec of this file. -/
theorem c9_arguments_roundtrip (enc : Json → String) (dec : String → Except String Json)
    (name : String) (fields : JsonObj)
    (hcodec : dec (enc (.obj fields)) = .ok (.obj fields)) :
    functionCallOfWire dec (functionCallToWire enc ⟨name, .obj fields⟩) =
      some ⟨name, .obj fields⟩ ∧
    (functionCallToWire enc ⟨name, .obj fields⟩).index "arguments" =
      .str (enc (.obj fields)) := by
  constructor
  · have h1 : functionCallOfWire dec (functionCallToWire enc ⟨name, .obj fields⟩) =
        some ⟨name, deserializeArguments dec (.str (enc (.obj fields)))⟩ := rfl
    rw [h1]
    unfold deserializeArguments
    dsimp only
    rw [hcodec]
  · rfl



lemma toolResponseMessages_isSome (obs : List String) :
    ∀ (tcs : List ToolCall) (i : Nat), i + tcs.length ≤ obs.length →
      (toolResponseMessages obs tcs i).isSome := by
  intro tcs
  induction tcs with
  | nil => intro i h; simp [toolResponseMessages]
  | cons tc tcs ih =>
    intro i h
    simp only [List.length_cons] at h
    have hi : i < obs.length := by omega
    rw [toolResponseMessages, List.get?_eq_get hi]
    dsimp only
    simpa using ih (i + 1) (by omega)

/-- C10 (amended): the memory assembler reads `observations[i]` for
each tool-call index with no bounds check; it is panic-free on every
log in which each `ActionStep` that has both fields set has at least
as many observations as tool calls.  Reachable step-loop logs can
violate that bound (mixed managed/real batches — see the
counterexample, where the full run panics). -/
theorem c10_assembler_safe (summary : Bool) (logs : List Step)
    (hb : ∀ s tcs obs, Step.ActionStep s ∈ logs → s.tool_call = some tcs →
      s.observations = some obs → tcs.length ≤ obs.length) :
    (writeInnerMemory summary logs).isSome := by
  induction logs with
  | nil => simp [writeInnerMemory]
  | cons l ls ih =>
    have hls := ih (fun s tcs obs hm => hb s tcs obs (List.mem_cons_of_mem _ hm))
    have hl : (stepMessages summary l).isSome := by
      cases l with
      | ActionStep s =>
        rw [stepMessages, actionStepMessages]
        dsimp only
        rcases htc : s.tool_call with _ | tcs <;> rcases hob : s.observations with _ | obs <;>
          simp only [Option.isSome_map]
        · simp
        · simp
        · simp
        · have hlen := hb s tcs obs (List.mem_cons_self _ _) htc hob
          simpa using toolResponseMessages_isSome obs tcs 0 (by omega)
      | PlanningStep f p => simp [stepMessages]
      | TaskStep t => simp [stepMessages]
      | SystemPromptStep t => simp [stepMessages]
      | ToolCallStep tc => simp [stepMessages]
    obtain ⟨ms, hms⟩ := Option.isSome_iff_exists.mp hl
    obtain ⟨rest, hrest⟩ := Option.isSome_iff_exists.mp hls
    simp [writeInnerMemory, hms, hrest]

theorem c10_assembler_safe_witness :
    (writeInnerMemory false [Step.SystemPromptStep "sys", Step.TaskStep "t",
      Step.ActionStep goodStep]).isSome := by
  apply c10_assembler_safe
  intro s tcs obs hmem htc hob
  simp only [List.mem_cons, List.not_mem_nil, or_false] at hmem
  rcases hmem with h | h | h
  · exact Step.noConfusion h
  · exact Step.noConfusion h
  · injection h with h
    subst h
    have h1 : tcs = [tcEcho] := by
      have : goodStep.tool_call = some [tcEcho] := rfl
      rw [this] at htc
      injection htc with htc
      exact htc.symm
    have h2 : obs = ["o"] := by
      have : goodStep.observations = some ["o"] := rfl
      rw [this] at hob
      injection hob with hob
      exact hob.symm
    subst h1; subst h2
    decide



theorem c1_run_termination_witness :
    runAgent fcStep cfgRecovery "t" true ⟨[], 0, 0, 0⟩ = (runRecovery.1, .ok "REC") ∧
    ((∃ pre s, runRecovery.1.logs = pre ++ [Step.ActionStep s] ∧ s.final_answer = some "REC") ∨
     (actionCount runRecovery.1.logs =
        actionCount (initState cfgRecovery "t" true ⟨[], 0, 0, 0⟩).logs +
          (cfgRecovery.maxSteps - 1) ∧
      ∃ mres, cfgRecovery.model (runRecovery.1.calls - 1) = .ok mres ∧
        mres.response = .ok "REC")) := by
  have h2 : runRecovery.2 = .ok "REC" := by decide
  have h : runAgent fcStep cfgRecovery "t" true ⟨[], 0, 0, 0⟩ = (runRecovery.1, .ok "REC") := by
    rw [← h2]
    rfl
  exact ⟨h, c1_run_termination cfgRecovery "t" true ⟨[], 0, 0, 0⟩ runRecovery.1 "REC" h⟩

theorem c2_stored_untruncated_witness :
    (writeInnerMemory false [Step.SystemPromptStep "sys", Step.TaskStep "t"]).isSome ∧
    joinedObservations stepBig.log =
      String.intercalate "\n" ([tcEcho].map (toolObservation cfgBig.toolExec)) := by
  refine ⟨by decide, ?_⟩
  exact c2_stored_untruncated cfgBig [Step.SystemPromptStep "sys", Step.TaskStep "t"] ⟨0, 0⟩
    (AgentStep.new 1 (some "t")) ⟨.ok "", .ok [tcEcho]⟩ [tcEcho] ""
    (by decide) (by decide) (by decide) (by decide) (by decide) (by decide)
    (by decide) (by decide)

theorem c4_inline_precedence_witness :
    parseResponse jsonParse "Action: \x7b\"name\": \"t2\", \"arguments\": \x7b\x7d\x7d" =
      some (.ok inlineAction) ∧
    stepInline.log.tool_call = some [synthToolCall (cfgInline.nid 0) inlineAction] := by
  refine ⟨by decide, ?_⟩
  exact c4_inline_precedence cfgInline [Step.SystemPromptStep "sys", Step.TaskStep "t"] ⟨0, 0⟩
    (AgentStep.new 1 (some "t")) ⟨.ok "Action: \x7b\"name\": \"t2\", \"arguments\": \x7b\x7d\x7d", .ok [tcEcho]⟩
    [tcEcho] "Action: \x7b\"name\": \"t2\", \"arguments\": \x7b\x7d\x7d" inlineAction
    (by decide) (by decide) (by decide) (by decide) (by decide) (by decide)

theorem c5_batch_order_witness :
    (stepBatch.log.observations.getD []).length = 2 ∧
    (∀ i (hi : i < ([tcEcho, tcBeta] : List ToolCall).length)
      (hj : i < (stepBatch.log.observations.getD []).length),
      (stepBatch.log.observations.getD []).get ⟨i, hj⟩ =
        toolObservation cfgBatch.toolExec (([tcEcho, tcBeta] : List ToolCall).get ⟨i, hi⟩)) := by
  have h := c5_batch_order cfgBatch [Step.SystemPromptStep "sys", Step.TaskStep "t"] ⟨0, 0⟩
    (AgentStep.new 1 (some "t")) ⟨.ok "", .ok [tcEcho, tcBeta]⟩ [tcEcho, tcBeta] ""
    (by decide) (by decide) (by decide) (by decide) (by decide) (by decide)
    (by decide) (by decide)
  exact h

theorem c7_single_planning_step_witness :
    runAgent fcStep cfgPlanTwo "t" true ⟨[], 0, 0, 0⟩ = (runPlanTwo.1, .ok "done") ∧
    (∃ facts plan rest,
      runPlanTwo.1.logs = [Step.SystemPromptStep cfgPlanTwo.systemPrompt, Step.TaskStep "t",
        Step.PlanningStep facts plan] ++ rest ∧
      (∀ s ∈ rest, isActionStep s = true) ∧
      planningCount runPlanTwo.1.logs = 1) := by
  have h2 : runPlanTwo.2 = .ok "done" := by decide
  have h : runAgent fcStep cfgPlanTwo "t" true ⟨[], 0, 0, 0⟩ = (runPlanTwo.1, .ok "done") := by
    rw [← h2]
    rfl
  exact ⟨h, c7_single_planning_step cfgPlanTwo 2 "t" ⟨[], 0, 0, 0⟩ runPlanTwo.1 "done"
    rfl (by decide) (by decide) h⟩

theorem c8_tool_id_nonempty_witness :
    ("abc" : String) ≠ "" ∧
    ((∀ wire, ∃ s, toolIdFromWire "abc" wire = some s ∧ s ≠ "") ∧
     (∀ action, (synthToolCall "abc" action).id = some ("call_" ++ "abc") ∧
       "call_" ++ "abc" ≠ "") ∧
     (∀ parts, (geminiGetToolsUsed parts).map (fun tc => tc.id) =
       (parts.filterMap (fun p => p.function_call)).map (fun fc => some fc.1))) := by
  have hn : ("abc" : String) ≠ "" := by decide
  exact ⟨hn, c8_tool_id_nonempty "abc" hn⟩

theorem c9_arguments_roundtrip_witness :
    jsonParse (Json.renderF 3 (.obj (.cons "x" (.num 1) .nil))) =
      .ok (.obj (.cons "x" (.num 1) .nil)) ∧
    (functionCallOfWire jsonParse
        (functionCallToWire (Json.renderF 3) ⟨"echo", .obj (.cons "x" (.num 1) .nil)⟩) =
      some ⟨"echo", .obj (.cons "x" (.num 1) .nil)⟩ ∧
     (functionCallToWire (Json.renderF 3) ⟨"echo", .obj (.cons "x" (.num 1) .nil)⟩).index
        "arguments" = .str (Json.renderF 3 (.obj (.cons "x" (.num 1) .nil)))) := by
  have hc : jsonParse (Json.renderF 3 (.obj (.cons "x" (.num 1) .nil))) =
      .ok (.obj (.cons "x" (.num 1) .nil)) := by decide
  exact ⟨hc, c9_arguments_roundtrip (Json.renderF 3) jsonParse "echo"
    (.cons "x" (.num 1) .nil) hc⟩


end Lumo
